import Mathlib

/-!
Verification development for the wrphttp transport-encoding layer.

This file gives a shallow embedding, in Lean 4, of the wrphttp Go package:
the header style table (headers.go), the Encoder (encode.go), the Decoder
(decode.go), the functional options (options.go), the media type registry
(media_type.go) and the content negotiation code (negotiate.go).

Modelling conventions:
  - Go strings are Lean String; Go byte slices are List Nat.
  - http.Header (a map from canonical key to list of values) is modelled as
    a function String → List String; Set, Add, Get and Values mirror the
    net/http semantics used by the package.
  - External collaborators (the wrp message codec, the compress writers and
    readers, strconv integer formatting and parsing, the message type
    friendly-name table) are abstracted as parameters; the theorems assume
    only their documented round-trip laws.
  - Go standard library string utilities (strings.Split, strings.Join,
    strings.TrimSpace, strings.SplitN, mime.ParseMediaType in the simple
    form used here, strconv.ParseFloat for q values) are modelled by small
    executable Lean functions; q values are modelled as rationals.
  - The streamed body produced through an io.Pipe by the encoder goroutine
    is modelled structurally: a stream is either one part body or a list of
    multipart parts followed by an optional terminal error, matching what a
    reader of the pipe observes (the written parts, then the CloseWithError
    value if any).
-/

/-- Error classes of the package.  Each constructor stands for one family of
errors produced with fmt.Errorf or errors.New in the source; validator and
codec errors are carried through the abstract `ext` constructor. -/
inductive Err where
  | emptyInput
  | nilRequest
  | nilResponse
  | invalidContentType
  | missingBoundary
  | unsupportedMediaType
  | invalidStyle
  | unsupportedEncoding
  | noAcceptable
  | bodyRead
  | decodeFailure
  | shapeMismatch
  | ext (n : Nat)
deriving DecidableEq, Repr

/-! ### Models of the Go standard library string utilities -/

/-- Model of unicode.IsSpace restricted to the ASCII whitespace characters
relevant to header and MIME parsing. -/
def goIsSpace (c : Char) : Bool :=
  c = ' ' || c = '\t' || c = '\n' || c = '\r'

/-- Trim of a character list on both ends, helper for goTrim. -/
def goTrimList (l : List Char) : List Char :=
  ((l.dropWhile goIsSpace).reverse.dropWhile goIsSpace).reverse

/-- Model of strings.TrimSpace. -/
def goTrim (s : String) : String := String.mk (goTrimList s.data)

/-- Model of strings.Split with a one-character separator, on character
lists.  Like the Go function it never returns an empty list. -/
def splitChar (sep : Char) : List Char → List (List Char)
  | [] => [[]]
  | c :: rest =>
    let r := splitChar sep rest
    if c = sep then [] :: r
    else
      match r with
      | [] => [[c]]
      | g :: gs => (c :: g) :: gs

/-- Model of strings.Split with a one-character separator. -/
def goSplit (sep : Char) (s : String) : List String :=
  (splitChar sep s.data).map String.mk

/-- Join of character lists with a one-character separator, helper for
goJoin. -/
def joinChar (sep : Char) : List (List Char) → List Char
  | [] => []
  | [l] => l
  | l :: ls => l ++ sep :: joinChar sep ls

/-- Model of strings.Join with a one-character separator. -/
def goJoin (sep : Char) (ls : List String) : String :=
  String.mk (joinChar sep (ls.map String.data))

/-- Split a character list at the first colon, helper for the
strings.SplitN(s, ":", 2) call in readHashmap. -/
def splitColon : List Char → Option (List Char × List Char)
  | [] => none
  | c :: rest =>
    if c = ':' then some ([], rest)
    else (splitColon rest).map (fun p => (c :: p.1, p.2))

/-- Model of strings.SplitN(s, ":", 2): some (before, after) when the string
contains a colon, none when it does not (the one-element result). -/
def goSplitN2Colon (s : String) : Option (String × String) :=
  (splitColon s.data).map (fun p => (String.mk p.1, String.mk p.2))

/-- Numeric value of a decimal digit character. -/
def digitVal? (c : Char) : Option Nat :=
  if c.isDigit then some (c.toNat - 48) else none

/-- Parse a list of decimal digit characters into a natural number. -/
def digitsVal? : List Char → Option Nat
  | [] => none
  | l => l.foldl (fun acc c => do
      let a ← acc
      let d ← digitVal? c
      pure (a * 10 + d)) (some 0)

/-- Model of strconv.ParseFloat for the unsigned decimal literals that occur
as q values, with an exact rational result. -/
def parseDec (s : String) : Option ℚ :=
  match goSplit '.' s with
  | [ip] => (digitsVal? ip.data).map (fun n => (n : ℚ))
  | [ip, fp] =>
    if ip.data = [] then
      (digitsVal? fp.data).map (fun f => (f : ℚ) / (10 : ℚ) ^ fp.data.length)
    else if fp.data = [] then
      (digitsVal? ip.data).map (fun n => (n : ℚ))
    else do
      let n ← digitsVal? ip.data
      let f ← digitsVal? fp.data
      pure ((n : ℚ) + (f : ℚ) / (10 : ℚ) ^ fp.data.length)
  | _ => none

/-! ### Media type registry (media_type.go) -/

def MEDIA_TYPE_JSON : String := "application/json"
def MEDIA_TYPE_MSGPACK : String := "application/msgpack"
def MEDIA_TYPE_OCTET_STREAM : String := "application/octet-stream"
def MEDIA_TYPE_JSONL : String := "application/jsonl"
def MEDIA_TYPE_MSGPACKL : String := "application/msgpackl"

def MEDIA_TYPE_OCTET_STREAM_X_XMIDT_STYLE : String :=
  "application/octet-stream; style=x-xmidt"
def MEDIA_TYPE_OCTET_STREAM_X_MIDT_STYLE : String :=
  "application/octet-stream; style=x-midt"
def MEDIA_TYPE_OCTET_STREAM_XMIDT_STYLE : String :=
  "application/octet-stream; style=xmidt"
def MEDIA_TYPE_OCTET_STREAM_WEBPA_STYLE : String :=
  "application/octet-stream; style=x-webpa"

def mtUnknown : String := ""
def mtJSON : String := MEDIA_TYPE_JSON
def mtMsgpack : String := MEDIA_TYPE_MSGPACK
def mtOctetStream : String := MEDIA_TYPE_OCTET_STREAM
def mtOctetStreamXXmidt : String := MEDIA_TYPE_OCTET_STREAM_X_XMIDT_STYLE
def mtOctetStreamXMidt : String := MEDIA_TYPE_OCTET_STREAM_X_MIDT_STYLE
def mtOctetStreamXWebpa : String := MEDIA_TYPE_OCTET_STREAM_WEBPA_STYLE
def mtOctetStreamXmidt : String := MEDIA_TYPE_OCTET_STREAM_XMIDT_STYLE
def mtJSONL : String := MEDIA_TYPE_JSONL
def mtMsgpackL : String := MEDIA_TYPE_MSGPACKL

/-- Header styles (headers.go). -/
def styleXXmidt : String := "X-Xmidt"
def styleXMidt : String := "X-Midt"
def styleXmidt : String := "Xmidt"
def styleXWebpa : String := "X-Webpa"

/-- The mtFromString registry map, as an association list in source order. -/
def mtFromStringPairs : List (String × String) :=
  [ (MEDIA_TYPE_JSON, mtJSON),
    (MEDIA_TYPE_MSGPACK, mtMsgpack),
    (MEDIA_TYPE_OCTET_STREAM, mtOctetStream),
    (MEDIA_TYPE_JSONL, mtJSONL),
    (MEDIA_TYPE_MSGPACKL, mtMsgpackL),
    (MEDIA_TYPE_OCTET_STREAM_X_XMIDT_STYLE, mtOctetStreamXXmidt),
    (MEDIA_TYPE_OCTET_STREAM_X_MIDT_STYLE, mtOctetStreamXMidt),
    (MEDIA_TYPE_OCTET_STREAM_XMIDT_STYLE, mtOctetStreamXmidt),
    (MEDIA_TYPE_OCTET_STREAM_WEBPA_STYLE, mtOctetStreamXWebpa) ]

/-- Lookup in mtFromString. -/
def mtFromString? (s : String) : Option String :=
  (mtFromStringPairs.find? (fun p => p.1 = s)).map (fun p => p.2)

/-- Stable insertion into a string list sorted in nondecreasing order,
helper for the sort.Strings call in AllMediaTypes. -/
def insertLeStr (x : String) : List String → List String
  | [] => [x]
  | y :: ys => if x ≤ y then x :: y :: ys else y :: insertLeStr x ys

/-- Model of sort.Strings. -/
def sortStrings : List String → List String
  | [] => []
  | x :: xs => insertLeStr x (sortStrings xs)

/-- AllMediaTypes (media_type.go): the keys of mtFromString, sorted.  The
iteration order of the Go map is irrelevant because the keys are sorted
before being returned. -/
def AllMediaTypes : List String :=
  sortStrings (mtFromStringPairs.map (fun p => p.1))

/-- toMediaType (media_type.go): canonical constructor from a base string
and a style token. -/
def toMediaType (mt style : String) : Except Err String :=
  match mtFromString? mt with
  | none => .error .unsupportedMediaType
  | some got =>
    if got ≠ mtOctetStream then .ok got
    else if style = "" then .ok mtOctetStream
    else if style = styleXXmidt then .ok mtOctetStreamXXmidt
    else if style = styleXMidt then .ok mtOctetStreamXMidt
    else if style = styleXmidt then .ok mtOctetStreamXmidt
    else if style = styleXWebpa then .ok mtOctetStreamXWebpa
    else .error .invalidStyle

/-- ASCII lowercase of one character, helper for goToLower. -/
def lowerChar (c : Char) : Char :=
  if 'A' ≤ c ∧ c ≤ 'Z' then Char.ofNat (c.toNat + 32) else c

/-- Model of strings.ToLower restricted to ASCII. -/
def goToLower (s : String) : String := String.mk (s.data.map lowerChar)

/-- Parameter list lookup with the Go map zero value for a missing key. -/
def paramGet (ps : List (String × String)) (k : String) : String :=
  (((ps.find? (fun p => p.1 = k)).map (fun p => p.2))).getD ""

/-- Parse one parameter of a media type string, helper for parseMediaType. -/
def parseParam (s : String) : Except Err (String × String) :=
  match goSplit '=' s with
  | [k, v] => .ok (goToLower (goTrim k), goTrim v)
  | _ => .error .invalidContentType

/-- Simplified model of mime.ParseMediaType as used by the package: the
media type (lowercased, trimmed) and its parameters (keys lowercased,
values kept as written).  An empty media type is an error. -/
def parseMediaType (s : String) : Except Err (String × List (String × String)) :=
  match goSplit ';' (goTrim s) with
  | [] => .error .invalidContentType
  | base :: rest =>
    let b := goToLower (goTrim base)
    if b = "" then .error .invalidContentType
    else do
      let ps ← rest.mapM parseParam
      return (b, ps)

/-- toMediaTypeFromMime (media_type.go). -/
def toMediaTypeFromMime (s : String) : Except Err String := do
  let (mt, ps) ← parseMediaType s
  toMediaType mt (paramGet ps "style")

/-! ### http.Header model and the header style table (headers.go) -/

/-- Model of net/http Header: a map from (already canonical) key to the
list of values, as a function. -/
abbrev Header : Type := String → List String

/-- The empty header set (make(http.Header)). -/
def Header.emp : Header := fun _ => []

/-- Header.Set: replace the values of a key by a single value. -/
def Header.set (h : Header) (k v : String) : Header :=
  fun q => if q = k then [v] else h q

/-- Header.Add: append one value to a key. -/
def Header.add (h : Header) (k v : String) : Header :=
  fun q => if q = k then h q ++ [v] else h q

/-- http.Header.Values. -/
def Header.values (h : Header) (k : String) : List String := h k

/-- http.Header.Get: the first value of the key, empty string if none. -/
def Header.get (h : Header) (k : String) : String :=
  match h k with
  | [] => ""
  | v :: _ => v

/-- The hdr type of headers.go: the ordered list of header name variants of
one logical field. -/
abbrev Hdr : Type := List String

/-- hdr.Get: the first non-empty value scanning the variant names in table
order. -/
def Hdr.get (t : Hdr) (headers : Header) : String :=
  match t with
  | [] => ""
  | key :: rest =>
    if Header.get headers key ≠ "" then Header.get headers key
    else Hdr.get rest headers

/-- hdr.Values: the concatenation of the values of every variant name, in
table order. -/
def Hdr.values (t : Hdr) (headers : Header) : List String :=
  t.foldl (fun acc key =>
    if (Header.values headers key).length > 0
    then acc ++ Header.values headers key else acc) []

/-- hdr.As: the header name of the requested style; for X-Webpa a 3-entry
table falls back to its first entry. -/
def Hdr.as (t : Hdr) (s : String) : String :=
  if s = "X-Xmidt" then t.headD ""
  else if s = "X-Midt" then (t.drop 1).headD ""
  else if s = "Xmidt" then (t.drop 2).headD ""
  else if s = "X-Webpa" then
    (if t.length = 4 then (t.drop 3).headD "" else t.headD "")
  else ""

def messageTypeHeader : Hdr :=
  ["X-Xmidt-Message-Type", "X-Midt-Message-Type", "Xmidt-Message-Type"]
def transactionUuidHeader : Hdr :=
  ["X-Xmidt-Transaction-Uuid", "X-Midt-Transaction-Uuid", "Xmidt-Transaction-Uuid"]
def statusHeader : Hdr :=
  ["X-Xmidt-Status", "X-Midt-Status", "Xmidt-Status"]
def rdrHeader : Hdr :=
  ["X-Xmidt-Request-Delivery-Response", "X-Midt-Request-Delivery-Response",
   "Xmidt-Request-Delivery-Response"]
def pathHeader : Hdr :=
  ["X-Xmidt-Path", "X-Midt-Path", "Xmidt-Path"]
def sourceHeader : Hdr :=
  ["X-Xmidt-Source", "X-Midt-Source", "Xmidt-Source"]
def destinationHeader : Hdr :=
  ["X-Xmidt-Destination", "X-Midt-Destination", "Xmidt-Destination",
   "X-Webpa-Device-Name"]
def acceptHeader : Hdr :=
  ["X-Xmidt-Accept", "X-Midt-Accept", "Xmidt-Accept"]
def metadataHeader : Hdr :=
  ["X-Xmidt-Metadata", "X-Midt-Metadata", "Xmidt-Metadata"]
def partnerIdHeader : Hdr :=
  ["X-Xmidt-Partner-Id", "X-Midt-Partner-Id", "Xmidt-Partner-Id"]
def sessionIdHeader : Hdr :=
  ["X-Xmidt-Session-Id", "X-Midt-Session-Id", "Xmidt-Session-Id"]
def headersHeader : Hdr :=
  ["X-Xmidt-Headers", "X-Midt-Headers", "Xmidt-Headers"]
def serviceNameHeader : Hdr :=
  ["X-Xmidt-Service-Name", "X-Midt-Service-Name", "Xmidt-Service-Name"]
def urlHeader : Hdr :=
  ["X-Xmidt-Url", "X-Midt-Url", "Xmidt-Url"]

/-- Modelled from the spec: hdr.WhichStyle is referenced by negotiate.go
but its definition is not under src; per the specification it guesses which
style an already received octet-stream request used, by checking which
variant name is present, returning the style of the first present variant
in table order and the empty string when none is present. -/
def Hdr.whichStyle (t : Hdr) (headers : Header) : String :=
  let styles := [styleXXmidt, styleXMidt, styleXmidt, styleXWebpa]
  (List.zip t styles).foldr
    (fun p acc => if Header.get headers p.1 ≠ "" then p.2 else acc) ""

/-! ### The wrp message model and external collaborators -/

/-- The wrp.Message fields that this package reads and writes. -/
structure Msg where
  typ : Nat := 0
  source : String := ""
  destination : String := ""
  transactionUUID : String := ""
  path : String := ""
  accept : String := ""
  sessionID : String := ""
  serviceName : String := ""
  url : String := ""
  status : Option Int := none
  requestDeliveryResponse : Option Int := none
  partnerIDs : List String := []
  metadata : List (String × String) := []
  headers : List String := []
  payload : List Nat := []
deriving DecidableEq, Repr

/-- A wrp.Processor validator: none means the message is accepted. -/
abbrev Validator : Type := Msg → Option Err

/-- Run a validator list; the first reported error wins. -/
def runVal (vals : List Validator) (m : Msg) : Option Err :=
  match vals with
  | [] => none
  | v :: rest =>
    match v m with
    | some e => some e
    | none => runVal rest m

/-- External string-level collaborators: the wrp message type friendly-name
table (FriendlyName, StringToMessageType) and the strconv integer codec
(fmt.Sprintf %d, strconv.ParseInt). -/
structure StrExt where
  friendly : Nat → String
  parseType : String → Nat
  showInt : Int → String
  readIntStr : String → Option Int

/-! ### headers.go: toHeadersForm and fromHeaders -/

/-- wrpHeader.toStringHeader. -/
def toStringHeader (typ : String) (key : Hdr) (value : String) (headers : Header) : Header :=
  if value ≠ "" then Header.set headers (Hdr.as key typ) value else headers

/-- wrpHeader.toIntPtrHeader. -/
def toIntPtrHeader (S : StrExt) (typ : String) (key : Hdr) (value : Option Int)
    (headers : Header) : Header :=
  match value with
  | some v => Header.set headers (Hdr.as key typ) (S.showInt v)
  | none => headers

/-- toHeadersForm (headers.go): project a message onto a header set plus a
payload, under the given style.  msg.To applies the validators; a validator
error aborts the projection. -/
def toHeadersForm (S : StrExt) (typ : String) (vals : List Validator) (m : Msg) :
    Except Err (Header × List Nat) :=
  match runVal vals m with
  | some e => .error e
  | none =>
    let headers := Header.emp
    let headers := Header.set headers (Hdr.as messageTypeHeader typ) (S.friendly m.typ)
    let headers := toIntPtrHeader S typ statusHeader m.status headers
    let headers := toIntPtrHeader S typ rdrHeader m.requestDeliveryResponse headers
    let headers := toStringHeader typ transactionUuidHeader m.transactionUUID headers
    let headers := toStringHeader typ pathHeader m.path headers
    let headers := toStringHeader typ sourceHeader m.source headers
    let headers := toStringHeader typ destinationHeader m.destination headers
    let headers := toStringHeader typ acceptHeader m.accept headers
    let headers := toStringHeader typ sessionIdHeader m.sessionID headers
    let headers := toStringHeader typ serviceNameHeader m.serviceName headers
    let headers := toStringHeader typ urlHeader m.url headers
    let headers := m.metadata.foldl (fun h kv =>
      if kv.2 ≠ "" then Header.add h (Hdr.as metadataHeader typ) (kv.1 ++ ":" ++ kv.2)
      else h) headers
    let partners := goJoin ',' m.partnerIDs
    let headers := if partners ≠ "" then
      Header.set headers (Hdr.as partnerIdHeader typ) partners else headers
    let headers := m.headers.foldl (fun h v =>
      if v ≠ "" then Header.add h (Hdr.as headersHeader typ) v else h) headers
    .ok (headers, m.payload)

/-- wrpHeader.readString. -/
def readString (headers : Header) (key : Hdr) (target : String) : String :=
  if Hdr.get key headers ≠ "" then Hdr.get key headers else target

/-- wrpHeader.readInt: a value that does not parse as an integer is
ignored and the target left unchanged. -/
def readInt (S : StrExt) (headers : Header) (key : Hdr) (target : Option Int) :
    Option Int :=
  if Hdr.get key headers ≠ "" then
    match S.readIntStr (Hdr.get key headers) with
    | some v => some v
    | none => target
  else target

/-- wrpHeader.readStrings: split every value on commas, trim, drop empty
items. -/
def readStrings (headers : Header) (key : Hdr) (target : List String) : List String :=
  let val := Hdr.values key headers
  if val.length > 0 then
    (val.map (fun p => ((goSplit ',' p).map goTrim).filter (fun s => s ≠ ""))).flatten
  else target

/-- Insert into the Go map built by readHashmap: a later entry with the
same key overwrites the earlier one. -/
def mapInsert (l : List (String × String)) (k v : String) : List (String × String) :=
  if l.any (fun p => p.1 = k) then
    l.map (fun p => if p.1 = k then (k, v) else p)
  else l ++ [(k, v)]

/-- One step of the readHashmap loop: split a value at its first colon,
trim key and value, insert; a value without a colon is skipped. -/
def mdParseStep (rv : List (String × String)) (s : String) : List (String × String) :=
  match goSplitN2Colon s with
  | some (k, v) => mapInsert rv (goTrim k) (goTrim v)
  | none => rv

/-- wrpHeader.readHashmap: split every value at its first colon, trim key
and value, collect into a map; values without a colon are skipped. -/
def readHashmap (headers : Header) (key : Hdr) (target : List (String × String)) :
    List (String × String) :=
  let val := Hdr.values key headers
  if val.length > 0 then val.foldl mdParseStep [] else target

/-- wrpHeader.readHeaders: keep the non-empty values. -/
def readHeaders (headers : Header) (key : Hdr) (target : List String) : List String :=
  let val := Hdr.values key headers
  if val.length > 0 then val.filter (fun s => s ≠ "") else target

/-- fromHeaders (headers.go): reconstruct a message from a header set and
the body bytes, then validate it.  The body read result is an Except so a
failed read of the underlying stream is representable. -/
def fromHeaders (S : StrExt) (vals : List Validator) (headers : Header)
    (bodyE : Except Err (List Nat)) : Except Err Msg :=
  let m : Msg := {}
  let m := if Hdr.get messageTypeHeader headers ≠ ""
    then { m with typ := S.parseType (Hdr.get messageTypeHeader headers) } else m
  let m := { m with transactionUUID := readString headers transactionUuidHeader m.transactionUUID }
  let m := { m with status := readInt S headers statusHeader m.status }
  let m := { m with requestDeliveryResponse := readInt S headers rdrHeader m.requestDeliveryResponse }
  let m := { m with path := readString headers pathHeader m.path }
  let m := { m with source := readString headers sourceHeader m.source }
  let m := { m with destination := readString headers destinationHeader m.destination }
  let m := { m with accept := readString headers acceptHeader m.accept }
  let m := { m with sessionID := readString headers sessionIdHeader m.sessionID }
  let m := { m with serviceName := readString headers serviceNameHeader m.serviceName }
  let m := { m with url := readString headers urlHeader m.url }
  let m := { m with partnerIDs := readStrings headers partnerIdHeader m.partnerIDs }
  let m := { m with metadata := readHashmap headers metadataHeader m.metadata }
  let m := { m with headers := readHeaders headers headersHeader m.headers }
  match bodyE with
  | .error _ => .error .bodyRead
  | .ok payload =>
    let m := { m with payload := payload }
    match runVal vals m with
    | some e => .error e
    | none => .ok m

/-! ### Encoder (encode.go, options.go) -/

/-- One of the two external wrp codecs (wrp.JSON, wrp.Msgpack): an opaque
per-message encoder and decoder over an abstract body type β. -/
structure MsgCodec (β : Type) where
  enc : Msg → β
  dec : β → Option Msg

/-- The pair of external wrp codecs used by the package. -/
structure Codecs (β : Type) where
  json : MsgCodec β
  msgpack : MsgCodec β

/-- The logical content of one part body, before compression:
raw payload bytes (octet-stream), one codec document (json and msgpack),
newline-delimited documents (jsonl), or a count-prefposed document array
(msgpackl). -/
inductive PartBody (β : Type) where
  | bytes (bs : List Nat)
  | one (b : β)
  | lines (bs : List β)
  | array (bs : List β)

/-- What a reader of the encoder pipe observes: either one part body read
result, or a list of multipart parts followed by an optional terminal pipe
error (the CloseWithError value of the writing goroutine).  hangs models
the configuration in which no goroutine writes the pipe at all, so a read
never completes. -/
inductive BodyStream (β : Type) where
  | single (body : Except Err (PartBody β))
  | multi (parts : List (Header × PartBody β)) (terr : Option Err)
  | hangs

/-- The Encoder configuration record (encode.go). -/
structure Enc (β : Type) where
  mt : String := ""
  compFn : PartBody β → PartBody β := id
  encoding : String := ""
  validator : List Validator := []
  style : String := ""
  maxItems : Int := 0

/-- A functional option: Option.apply on the Encoder. -/
abbrev EncOption (β : Type) : Type := Enc β → Except Err (Enc β)

/-- The three external compress writer factories of options.go. -/
structure CompSet (β : Type) where
  gz : PartBody β → PartBody β
  fl : PartBody β → PartBody β
  zl : PartBody β → PartBody β

def AsJSON {β : Type} : EncOption β := fun e => .ok { e with mt := mtJSON }

def AsMsgpack {β : Type} : EncOption β := fun e => .ok { e with mt := mtMsgpack }

/-- AsOctetStream (options.go): the first supplied style (default X-Webpa)
must be one of the four known tokens. -/
def AsOctetStream {β : Type} (headerStyle : List String) : EncOption β := fun e =>
  match headerStyle ++ [styleXWebpa] with
  | [] => .error .invalidStyle
  | s :: _ =>
    if s = styleXXmidt ∨ s = styleXMidt ∨ s = styleXmidt ∨ s = styleXWebpa then
      .ok { e with mt := mtOctetStream, style := s }
    else .error .invalidStyle

def AsJSONL {β : Type} : EncOption β := fun e => .ok { e with mt := mtJSONL }

def AsMsgpackL {β : Type} : EncOption β := fun e => .ok { e with mt := mtMsgpackL }

def EncodeGzip {β : Type} (C : CompSet β) : EncOption β := fun e =>
  .ok { e with compFn := C.gz, encoding := "gzip" }

def EncodeDeflate {β : Type} (C : CompSet β) : EncOption β := fun e =>
  .ok { e with compFn := C.fl, encoding := "deflate" }

def EncodeZlib {β : Type} (C : CompSet β) : EncOption β := fun e =>
  .ok { e with compFn := C.zl, encoding := "zlib" }

/-- EncodeNoCompression: the nopWriteCloser wrapper is the identity. -/
def EncodeNoCompression {β : Type} : EncOption β := fun e =>
  .ok { e with compFn := id, encoding := "identity" }

def EncodeValidators {β : Type} (v : List Validator) : EncOption β := fun e =>
  .ok { e with validator := e.validator ++ v }

def WithMaxItemsPerChunk {β : Type} (maxItems : Int) : EncOption β := fun e =>
  .ok { e with maxItems := if maxItems = 0 then 1000 else maxItems }

/-- NewEncoder (encode.go): the defaults are applied first, then the caller
options in order; nil options are skipped; the first option error aborts
with no Encoder. -/
def NewEncoder {β : Type} (opts : List (Option (EncOption β))) : Except Err (Enc β) :=
  let defaults : List (Option (EncOption β)) :=
    [some AsMsgpack, some EncodeNoCompression, some (WithMaxItemsPerChunk 0)]
  (defaults ++ opts).foldlM
    (fun e o =>
      match o with
      | none => .ok e
      | some f => f e) ({} : Enc β)

/-- Encoder.getHeaders: Content-Type always, Content-Encoding unless the
encoding is empty or identity; with an argument the pairs are set into the
given header set. -/
def getHeaders {β : Type} (e : Enc β) (h : Header := Header.emp) : Header :=
  let h1 := Header.set h "Content-Type" e.mt
  if e.encoding ≠ "" ∧ e.encoding ≠ "identity" then
    Header.set h1 "Content-Encoding" e.encoding
  else h1

/-- Model of the boundary generated by multipart.NewWriter: an arbitrary
fixed non-empty token (the generated boundary is random but never empty). -/
def boundaryConst : String := "wrpmodelboundary"

/-- The top level headers of a multipart response. -/
def multiHeaders {β : Type} (e : Enc β) : Header :=
  Header.set (getHeaders e) "Content-Type"
    ("multipart/mixed; boundary=" ++ boundaryConst)

/-- Encode one message with one codec, after running the validators (the
format Encoder applies the processors before writing). -/
def encodeOne {β : Type} (B : MsgCodec β) (vals : List Validator) (m : Msg) :
    Except Err β :=
  match runVal vals m with
  | some e => .error e
  | none => .ok (B.enc m)

/-- Encoder.asFormatSingle: one bulk-format message into a single body. -/
def asFormatSingle {β : Type} (B : MsgCodec β) (e : Enc β) (m : Msg) : BodyStream β :=
  .single ((encodeOne B e.validator m).map (fun b => e.compFn (.one b)))

/-- Encoder.asFormatMultiPart goroutine: one part per message; the first
encode failure closes the pipe with that error after the already written
parts. -/
def asFormatParts {β : Type} (B : MsgCodec β) (e : Enc β) :
    List Msg → List (Header × PartBody β) × Option Err
  | [] => ([], none)
  | m :: rest =>
    match encodeOne B e.validator m with
    | .error err => ([], some err)
    | .ok b =>
      let (ps, t) := asFormatParts B e rest
      ((getHeaders e, e.compFn (.one b)) :: ps, t)

/-- Encoder.asOctetStreamSingle: the projection failure is synchronous; on
success the body is the compressed payload and the message field headers
are merged with the content headers. -/
def asOctetStreamSingle {β : Type} (S : StrExt) (e : Enc β) (m : Msg) :
    Except Err (Header × BodyStream β) :=
  match toHeadersForm S e.style e.validator m with
  | .error err => .error err
  | .ok (h, payload) =>
    .ok (getHeaders e h, .single (.ok (e.compFn (.bytes payload))))

/-- Encoder.asOctetStreamMultiPart goroutine: per message the projection
runs inside the goroutine; a failure closes the pipe with that error after
the already written parts. -/
def asOctetStreamParts {β : Type} (S : StrExt) (e : Enc β) :
    List Msg → List (Header × PartBody β) × Option Err
  | [] => ([], none)
  | m :: rest =>
    match toHeadersForm S e.style e.validator m with
    | .error err => ([], some err)
    | .ok (h, payload) =>
      let (ps, t) := asOctetStreamParts S e rest
      ((getHeaders e h, e.compFn (.bytes payload)) :: ps, t)

/-- Sequential fallible map: the shape of every per-item encode and decode
loop in the package; the first failure aborts. -/
def mapExcept {α γ : Type} (f : α → Except Err γ) : List α → Except Err (List γ)
  | [] => .ok []
  | x :: xs => do
    let y ← f x
    let ys ← mapExcept f xs
    return y :: ys

/-- Encode a message list document-by-document (asJSONLArray and the item
loop of asMsgpackLArray); the first failure aborts. -/
def encodeList {β : Type} (B : MsgCodec β) (vals : List Validator)
    (msgs : List Msg) : Except Err (List β) :=
  mapExcept (encodeOne B vals) msgs

/-- chunked.Next iterated to the end (encode.go): slices of perChunk
messages, the last possibly shorter.  The iterator is only ever run with
perChunk at least 1; the max keeps the function total. -/
def chunkList {α : Type} (c : Nat) : List α → List (List α)
  | [] => []
  | x :: xs =>
    (x :: xs).take (max c 1) :: chunkList c ((x :: xs).drop (max c 1))
termination_by l => l.length
decreasing_by
  simp only [List.length_drop, List.length_cons]
  omega

/-- Encoder.chunkedMultipart goroutine: one part per chunk; the first chunk
encode failure closes the pipe with that error after the already written
parts. -/
def chunkedParts {β : Type} (e : Enc β) (mk : List Msg → Except Err (PartBody β)) :
    List (List Msg) → List (Header × PartBody β) × Option Err
  | [] => ([], none)
  | ch :: rest =>
    match mk ch with
    | .error err => ([], some err)
    | .ok b =>
      let (ps, t) := chunkedParts e mk rest
      ((getHeaders e, e.compFn b) :: ps, t)

/-- Encoder.asJSONL and Encoder.asMsgpackL share this chunking structure;
shape is PartBody.lines for jsonl and PartBody.array for msgpackl. -/
def asLineFormat {β : Type} (B : MsgCodec β) (e : Enc β)
    (shape : List β → PartBody β) (msgs : List Msg) : Header × BodyStream β :=
  if e.maxItems < 1 ∨ (msgs.length : Int) ≤ e.maxItems then
    (getHeaders e,
      .single ((encodeList B e.validator msgs).map (fun bs => e.compFn (shape bs))))
  else
    let chunks := chunkList e.maxItems.toNat msgs
    let (ps, t) := chunkedParts e
      (fun ch => (encodeList B e.validator ch).map shape) chunks
    (multiHeaders e, .multi ps t)

/-- Encoder.ToParts (encode.go). -/
def toParts {β : Type} (C : Codecs β) (S : StrExt) (e : Enc β) (msgs : List Msg) :
    Except Err (Header × BodyStream β) :=
  if msgs = [] then .error .emptyInput
  else
    if e.mt = mtJSON ∨ e.mt = mtMsgpack then
      let B := if e.mt = mtJSON then C.json else C.msgpack
      match msgs with
      | [m] => .ok (getHeaders e, asFormatSingle B e m)
      | _ =>
        let (ps, t) := asFormatParts B e msgs
        .ok (multiHeaders e, .multi ps t)
    else if e.mt = mtOctetStream then
      match msgs with
      | [m] => asOctetStreamSingle S e m
      | _ =>
        let (ps, t) := asOctetStreamParts S e msgs
        .ok (multiHeaders e, .multi ps t)
    else if e.mt = mtMsgpackL then
      .ok (asLineFormat C.msgpack e PartBody.array msgs)
    else if e.mt = mtJSONL then
      .ok (asLineFormat C.json e PartBody.lines msgs)
    else
      -- no switch case matches: nothing ever writes the pipe
      .ok (getHeaders e, .hangs)

/-! ### Decoder (decode.go) -/

/-- The three external decompression readers of handleEncoding. -/
structure DecompSet (β : Type) where
  gz : PartBody β → PartBody β
  fl : PartBody β → PartBody β
  zl : PartBody β → PartBody β

/-- handleEncoding (decode.go): dispatch on the Content-Encoding token;
identity and an absent header leave the body unchanged, an unknown token is
an error. -/
def handleEncoding {β : Type} (D : DecompSet β) (h : Header) (b : PartBody β) :
    Except Err (PartBody β) :=
  let et := Header.get h "Content-Encoding"
  if et = "gzip" then .ok (D.gz b)
  else if et = "deflate" then .ok (D.fl b)
  else if et = "zlib" then .ok (D.zl b)
  else if et = "identity" ∨ et = "" then .ok b
  else .error .unsupportedEncoding

/-- Character-list test used to model strings.HasPrefix. -/
def startsWithList : List Char → List Char → Bool
  | _, [] => true
  | [], _ :: _ => false
  | c :: cs, p :: ps => c = p && startsWithList cs ps

/-- Model of strings.HasPrefix. -/
def goHasPfx (s p : String) : Bool := startsWithList s.data p.data

/-- The strings.TrimPrefix(ct, "multipart/") call of fromPart. -/
def trimMultipart (s : String) : String :=
  if goHasPfx s "multipart/" then s.drop 10 else s

/-- Decode one codec document and run the validators on the result, the
per-message work of fromFormat, fromJSONL and fromMsgpackL. -/
def decodeOne {β : Type} (B : MsgCodec β) (vals : List Validator) (b : β) :
    Except Err Msg :=
  match B.dec b with
  | none => .error .decodeFailure
  | some m =>
    match runVal vals m with
    | some e => .error e
    | none => .ok m

/-- fromFormat (decode.go): exactly one document. -/
def fromFormat {β : Type} (B : MsgCodec β) (vals : List Validator)
    (b : PartBody β) : Except Err (List Msg) :=
  match b with
  | .one bb => (decodeOne B vals bb).map (fun m => [m])
  | _ => .error .decodeFailure

/-- fromOctetStream (decode.go). -/
def fromOctetStream {β : Type} (S : StrExt) (vals : List Validator)
    (h : Header) (b : PartBody β) : Except Err (List Msg) :=
  match b with
  | .bytes bs => (fromHeaders S vals h (.ok bs)).map (fun m => [m])
  | _ => .error .decodeFailure

/-- fromJSONL (decode.go): one message per line, the first bad line aborts. -/
def fromJSONL {β : Type} (B : MsgCodec β) (vals : List Validator)
    (b : PartBody β) : Except Err (List Msg) :=
  match b with
  | .lines bs => mapExcept (decodeOne B vals) bs
  | _ => .error .decodeFailure

/-- fromMsgpackL (decode.go): read the array header count, then that many
documents; the first bad document aborts. -/
def fromMsgpackL {β : Type} (B : MsgCodec β) (vals : List Validator)
    (b : PartBody β) : Except Err (List Msg) :=
  match b with
  | .array bs => mapExcept (decodeOne B vals) bs
  | _ => .error .decodeFailure

/-- fromPart (decode.go): resolve the content encoding, then dispatch on
the base media type of the Content-Type header. -/
def fromPart {β : Type} (C : Codecs β) (S : StrExt) (D : DecompSet β)
    (vals : List Validator) (h : Header) (bodyE : Except Err (PartBody β)) :
    Except Err (List Msg) := do
  let b0 ← bodyE
  let b ← handleEncoding D h b0
  let (ct0, _) ← parseMediaType (Header.get h "Content-Type")
  let ct := trimMultipart ct0
  if ct = mtJSON then fromFormat C.json vals b
  else if ct = mtMsgpack then fromFormat C.msgpack vals b
  else if ct = mtOctetStream then fromOctetStream S vals h b
  else if ct = mtJSONL then fromJSONL C.json vals b
  else if ct = mtMsgpackL then fromMsgpackL C.msgpack vals b
  else .error .unsupportedMediaType

/-- The multipart.Reader loop shared by DecodeFromParts and DecodeRequest:
parts are decoded in order and concatenated; the first part failure aborts;
after the last part a pipe CloseWithError value surfaces as the NextPart
error. -/
def decodeParts {β : Type} (C : Codecs β) (S : StrExt) (D : DecompSet β)
    (vals : List Validator) :
    List (Header × PartBody β) → Option Err → Except Err (List Msg)
  | [], none => .ok []
  | [], some e => .error e
  | (h, b) :: rest, t => do
    let msgs ← fromPart C S D vals h (.ok b)
    let more ← decodeParts C S D vals rest t
    return msgs ++ more

/-- DecodeFromParts (decode.go). -/
def DecodeFromParts {β : Type} (C : Codecs β) (S : StrExt) (D : DecompSet β)
    (vals : List Validator) (headers : Header) (body : BodyStream β) :
    Except Err (List Msg) :=
  match parseMediaType (Header.get headers "Content-Type") with
  | .error _ => .error .invalidContentType
  | .ok (mediaTy, params) =>
    if ¬ goHasPfx mediaTy "multipart/" then
      match body with
      | .single bodyE => fromPart C S D vals headers bodyE
      | _ => .error .decodeFailure
    else
      let boundary := paramGet params "boundary"
      if boundary = "" then .error .missingBoundary
      else if mediaTy ≠ "multipart/mixed" then .error .unsupportedMediaType
      else
        match body with
        | .multi parts terr => decodeParts C S D vals parts terr
        | _ => .error .decodeFailure

/-- DecodeRequest (decode.go): nil request check, then the same single-part
or multipart split; the multipart path goes through req.MultipartReader,
which accepts multipart/mixed and multipart/form-data and requires a
boundary. -/
def DecodeRequest {β : Type} (C : Codecs β) (S : StrExt) (D : DecompSet β)
    (vals : List Validator) (req : Option (Header × BodyStream β)) :
    Except Err (List Msg) :=
  match req with
  | none => .error .nilRequest
  | some (h, body) =>
    match parseMediaType (Header.get h "Content-Type") with
    | .error _ => .error .invalidContentType
    | .ok (ct, params) =>
      if ¬ goHasPfx ct "multipart/" then
        match body with
        | .single bodyE => fromPart C S D vals h bodyE
        | _ => .error .decodeFailure
      else
        if ¬ (ct = "multipart/mixed" ∨ ct = "multipart/form-data") then
          .error .unsupportedMediaType
        else if paramGet params "boundary" = "" then .error .missingBoundary
        else
          match body with
          | .multi parts terr => decodeParts C S D vals parts terr
          | _ => .error .decodeFailure

/-- DecodeResponse (decode.go): nil response check, then DecodeFromParts. -/
def DecodeResponse {β : Type} (C : Codecs β) (S : StrExt) (D : DecompSet β)
    (vals : List Validator) (resp : Option (Header × BodyStream β)) :
    Except Err (List Msg) :=
  match resp with
  | none => .error .nilResponse
  | some (h, body) => DecodeFromParts C S D vals h body

/-! ### Content negotiation (negotiate.go) -/

/-- acceptType (negotiate.go): one parsed Accept entry. -/
structure AcceptType where
  value : String
  params : List (String × String)
  q : ℚ
deriving DecidableEq, Repr

/-- Parse one comma-separated Accept entry: trim, parse as a media type,
extract an explicit q parameter (default 1, kept at 1 when the value does
not parse as a float, in which case the q parameter is not removed). -/
def parseAcceptEntry (part : String) : Except Err AcceptType := do
  let (v, ps) ← parseMediaType (goTrim part)
  match ps.find? (fun p => p.1 = "q") with
  | some p =>
    match parseDec p.2 with
    | some qf => .ok ⟨v, ps.filter (fun x => ¬ (x.1 = "q")), qf⟩
    | none => .ok ⟨v, ps, 1⟩
  | none => .ok ⟨v, ps, 1⟩

/-- Stable insertion into a list sorted by nonincreasing q: the inserted
element stems from earlier in the original list, so it goes before any
element of equal q.  Helper for sortByQ. -/
def insertByQ (x : AcceptType) : List AcceptType → List AcceptType
  | [] => [x]
  | y :: ys => if y.q ≤ x.q then x :: y :: ys else y :: insertByQ x ys

/-- Model of the sort.SliceStable call of examineRequest (descending q):
a stable sort is uniquely determined by sortedness and stability, so this
stable insertion sort is an exact model. -/
def sortByQ : List AcceptType → List AcceptType
  | [] => []
  | x :: xs => insertByQ x (sortByQ xs)

/-- The two wildcard Accept values that are remembered and skipped. -/
def isWildAccept (a : AcceptType) : Bool :=
  a.value = "*/*" || a.value = "application/*"

/-- The exact registry match attempted for a concrete Accept entry: the
entry value together with its lowercased style parameter; a registry error
is discarded and counts as no match (the mt != mtUnknown test). -/
def acceptMatch? (a : AcceptType) : Option String :=
  match toMediaType a.value (goToLower (paramGet a.params "style")) with
  | .ok mt => if mt ≠ mtUnknown then some mt else none
  | .error _ => none

/-- The scan loop of examineRequest over the sorted entries, with the
hasWildcardAll flag. -/
def scanAccepts : List AcceptType → Bool → Except Err String
  | [], wild => if wild then .ok mtMsgpackL else .error .noAcceptable
  | a :: rest, wild =>
    if isWildAccept a then scanAccepts rest true
    else
      match acceptMatch? a with
      | some mt => .ok mt
      | none => scanAccepts rest wild

/-- examineContentType (negotiate.go): the request is represented by its
header set. -/
def examineContentType (h : Header) : Except Err String := do
  let mt ← toMediaTypeFromMime (Header.get h "Content-Type")
  if mt ≠ mtOctetStream then return mt
  else
    let style := Hdr.whichStyle destinationHeader h
    let style :=
      if style = "" then
        let s := Hdr.whichStyle messageTypeHeader h
        if s = styleXXmidt then styleXWebpa else s
      else style
    toMediaType mtOctetStream style

/-- examineRequest (negotiate.go). -/
def examineRequest (h : Header) : Except Err String :=
  let header := Header.get h "Accept"
  if header = "" then examineContentType h
  else do
    let entries ← mapExcept parseAcceptEntry (goSplit ',' header)
    scanAccepts (sortByQ entries) false

/-- negotiatedMediaType (negotiate.go); the mtUnknown normalization of the
source only fires together with an error, so this is examineRequest. -/
def negotiatedMediaType (h : Header) : Except Err String :=
  match examineRequest h with
  | .error e => .error e
  | .ok mt => .ok mt

/-! ### Validity predicates, equivalences and concrete witness instances -/

/-- Metadata that survives the header projection: distinct keys, colon-free
keys, trim-invariant keys and values, non-empty values (toHeadersForm skips
empty values and readHashmap splits at the first colon and trims). -/
def ValidMeta (md : List (String × String)) : Prop :=
  (md.map Prod.fst).Nodup ∧
  ∀ kv ∈ md, goTrim kv.1 = kv.1 ∧ goTrim kv.2 = kv.2 ∧ kv.2 ≠ "" ∧ ':' ∉ kv.1.data

/-- A message whose list-valued fields survive the octet-stream header
projection: metadata as above, partner ids non-empty, comma-free and
trim-invariant (they travel as one comma-joined header value), raw headers
non-empty. -/
def ValidMsg (m : Msg) : Prop :=
  ValidMeta m.metadata ∧
  (∀ p ∈ m.partnerIDs, p ≠ "" ∧ goTrim p = p ∧ ',' ∉ p.data) ∧
  (∀ s ∈ m.headers, s ≠ "")

/-- Equality of two messages field by field, with the metadata compared as
maps (a permutation of an association list with distinct keys is the same
Go map). -/
def msgEquiv (a b : Msg) : Prop :=
  a.typ = b.typ ∧ a.source = b.source ∧ a.destination = b.destination ∧
  a.transactionUUID = b.transactionUUID ∧ a.path = b.path ∧
  a.accept = b.accept ∧ a.sessionID = b.sessionID ∧
  a.serviceName = b.serviceName ∧ a.url = b.url ∧
  a.status = b.status ∧ a.requestDeliveryResponse = b.requestDeliveryResponse ∧
  a.partnerIDs = b.partnerIDs ∧ a.headers = b.headers ∧
  a.payload = b.payload ∧ a.metadata.Perm b.metadata

/-- The same message up to the emission order of its metadata: the Go map
iteration order during encoding is arbitrary, so the encoder may see the
metadata in any permutation. -/
def sameUpToMetaOrder (a b : Msg) : Prop :=
  a = { b with metadata := a.metadata } ∧ a.metadata.Perm b.metadata

/-- The compressor configured on the Encoder is inverted by the matching
reader of handleEncoding for its Content-Encoding token. -/
def CompInverts {β : Type} (D : DecompSet β) (encoding : String)
    (c : PartBody β → PartBody β) : Prop :=
  (encoding = "gzip" ∧ ∀ b, D.gz (c b) = b) ∨
  (encoding = "deflate" ∧ ∀ b, D.fl (c b) = b) ∨
  (encoding = "zlib" ∧ ∀ b, D.zl (c b) = b) ∨
  ((encoding = "identity" ∨ encoding = "") ∧ ∀ b, c b = b)

/-- Encode then decode: ToParts handed to DecodeFromParts, the shape of the
response path (DecodeResponse) and, after materialization, of the request
path. -/
def roundTrip {β : Type} (C : Codecs β) (S : StrExt) (D : DecompSet β)
    (e : Enc β) (vals : List Validator) (msgs : List Msg) :
    Except Err (List Msg) :=
  match toParts C S e msgs with
  | .error er => .error er
  | .ok (h, s) => DecodeFromParts C S D vals h s

/-- Concrete unary integer rendering used to instantiate the abstract
strconv codec in witnesses. -/
def unaryShow (i : Int) : String :=
  match i with
  | .ofNat n => String.mk ('p' :: List.replicate n 'i')
  | .negSucc n => String.mk ('n' :: List.replicate n 'i')

/-- Concrete inverse of unaryShow; anything else does not parse. -/
def unaryRead (s : String) : Option Int :=
  match s.data with
  | 'p' :: rest => some (Int.ofNat rest.length)
  | 'n' :: rest => some (Int.negSucc rest.length)
  | _ => none

/-- Concrete witness codec: the body type is the message itself. -/
def wCodec : MsgCodec Msg := ⟨id, some⟩

def wCodecs : Codecs Msg := ⟨wCodec, wCodec⟩

/-- Concrete witness friendly-name table: a non-empty unary rendering. -/
def wStr : StrExt :=
  ⟨fun t => String.mk (List.replicate (t + 1) 'x'),
   fun s => s.data.length - 1,
   unaryShow, unaryRead⟩

/-- Concrete witness decompressors: the identity on part bodies. -/
def wDecomp : DecompSet Msg := ⟨id, id, id⟩

/-- Build a Header from an association list, for concrete witnesses. -/
def hOf (l : List (String × List String)) : Header :=
  fun k => (((l.find? (fun p => p.1 = k)).map (fun p => p.2))).getD []

/-- A concrete valid sample message. -/
def sampleMsg : Msg :=
  { typ := 3
    source := "source1"
    destination := "destination1"
    transactionUUID := "uuid1"
    status := some 200
    partnerIDs := ["partner1", "partner2"]
    metadata := [("key1", "value1"), ("key2", "value2")]
    headers := ["header1", "header2"]
    payload := [1, 2, 3] }

/-- A second concrete valid sample message. -/
def sampleMsg2 : Msg :=
  { typ := 3
    source := "source2"
    destination := "destination2"
    transactionUUID := "uuid2"
    payload := [4] }

/-- A concrete octet-stream Encoder configuration over the witness body
type. -/
def sampleEnc (mt st : String) : Enc Msg :=
  { mt := mt, compFn := id, encoding := "identity", style := st, maxItems := 1000 }

/-- The match attempted by the scan loop on a non-wildcard entry; none for
a wildcard entry (wildcards are skipped and only remembered). -/
def acceptConcreteMatch? (a : AcceptType) : Option String :=
  if isWildAccept a then none else acceptMatch? a

/-- Modelled from the spec: the style the C3 claim says negotiation derives
for an octet-stream Content-Type, written from the claim words alone for
comparison with the source: the style is guessed from which header-name
variant is present (destination field first, then message type field) and
an X-Xmidt style detected this way is remapped to X-Webpa. -/
def specC3Style (h : Header) : String :=
  let s := Hdr.whichStyle destinationHeader h
  let s := if s = "" then Hdr.whichStyle messageTypeHeader h else s
  if s = styleXXmidt then styleXWebpa else s

/-- Modelled from the spec: the C3 claim as written — with no Accept
header, parse the Content-Type; when the base type is octet-stream the
style is not taken from the style parameter but guessed from the headers. -/
def specC3Negotiate (h : Header) : Except Err String := do
  let (mt, _) ← parseMediaType (Header.get h "Content-Type")
  if mt = "application/octet-stream" then toMediaType mtOctetStream (specC3Style h)
  else toMediaTypeFromMime (Header.get h "Content-Type")

/-- A concrete validator for witnesses: rejects a message with an empty
source. -/
def wValReject : Validator :=
  fun m => if m.source = "" then some (.ext 7) else none

/-! ### Lemmas: pointwise behaviour of the header operations -/

theorem Header.set_apply (h : Header) (k v q : String) :
    Header.set h k v q = if q = k then [v] else h q := rfl

theorem Header.add_apply (h : Header) (k v q : String) :
    Header.add h k v q = if q = k then h q ++ [v] else h q := rfl

theorem Header.get_eq_headD (h : Header) (k : String) :
    Header.get h k = (h k).headD "" := by
  unfold Header.get
  cases h k <;> rfl

theorem toStringHeader_apply (typ : String) (key : Hdr) (v : String)
    (h : Header) (n : String) :
    toStringHeader typ key v h n =
      if v ≠ "" then Header.set h (Hdr.as key typ) v n else h n := by
  unfold toStringHeader
  split <;> rfl

theorem toIntPtrHeader_apply (S : StrExt) (typ : String) (key : Hdr)
    (v : Option Int) (h : Header) (n : String) :
    toIntPtrHeader S typ key v h n =
      if v = none then h n
      else Header.set h (Hdr.as key typ) (S.showInt (v.getD 0)) n := by
  cases v <;> simp [toIntPtrHeader]

theorem option_match_self {α β : Type} (o : Option α) (x : β) :
    (match o with | some _ => x | none => x) = x := by
  cases o <;> rfl

theorem mdFold_apply (K : String) (l : List (String × String)) (h : Header)
    (n : String) :
    (l.foldl (fun h kv =>
        if kv.2 = "" then h else Header.add h K (kv.1 ++ ":" ++ kv.2)) h) n =
      if n = K then
        h n ++ (l.filter (fun kv => ¬ kv.2 = "")).map (fun kv => kv.1 ++ ":" ++ kv.2)
      else h n := by
  induction l generalizing h with
  | nil => simp
  | cons kv rest ih =>
    simp only [List.foldl_cons]
    by_cases hv : kv.2 = ""
    · rw [if_pos hv, ih h]
      simp [List.filter_cons, hv]
    · rw [if_neg hv, ih (Header.add h K (kv.1 ++ ":" ++ kv.2))]
      by_cases hn : n = K <;>
        simp [Header.add_apply, hn, List.filter_cons, hv]

theorem hdrFold_apply (K : String) (l : List String) (h : Header) (n : String) :
    (l.foldl (fun h v => if v = "" then h else Header.add h K v) h) n =
      if n = K then h n ++ l.filter (fun v => ¬ v = "") else h n := by
  induction l generalizing h with
  | nil => simp
  | cons v rest ih =>
    simp only [List.foldl_cons]
    by_cases hv : v = ""
    · rw [if_pos hv, ih h]
      simp [List.filter_cons, hv]
    · rw [if_neg hv, ih (Header.add h K v)]
      by_cases hn : n = K <;>
        simp [Header.add_apply, hn, List.filter_cons, hv]

/-! ### Lemmas: string splitting round trips -/

theorem splitColon_append (k v : List Char) (hk : ':' ∉ k) :
    splitColon (k ++ ':' :: v) = some (k, v) := by
  induction k with
  | nil => simp [splitColon]
  | cons c rest ih =>
    have hc : ¬ (c = ':') := fun h => hk (by simp [h])
    have hr : ':' ∉ rest := fun h => hk (List.mem_cons_of_mem _ h)
    simp [splitColon, hc, ih hr]

theorem data_append_colon (k v : String) :
    (k ++ ":" ++ v).data = k.data ++ ':' :: v.data := by
  have h1 : (k ++ ":" ++ v).data = (k.data ++ (":" : String).data) ++ v.data := rfl
  have h2 : (":" : String).data = [':'] := rfl
  rw [h2] at h1
  rw [h1]
  simp

theorem goSplitN2Colon_format (k v : String) (hk : ':' ∉ k.data) :
    goSplitN2Colon (k ++ ":" ++ v) = some (k, v) := by
  simp [goSplitN2Colon, data_append_colon, splitColon_append k.data v.data hk]

theorem splitChar_ne_nil (sep : Char) (l : List Char) : splitChar sep l ≠ [] := by
  cases l with
  | nil => simp [splitChar]
  | cons c rest =>
    simp only [splitChar]
    by_cases hc : c = sep
    · simp [hc]
    · simp only [if_neg hc]
      cases splitChar sep rest <;> simp

theorem splitChar_no_sep (sep : Char) (l : List Char) (h : sep ∉ l) :
    splitChar sep l = [l] := by
  induction l with
  | nil => rfl
  | cons c rest ih =>
    have hc : ¬ (c = sep) := fun hh => h (by simp [hh])
    have hr : sep ∉ rest := fun hh => h (List.mem_cons_of_mem _ hh)
    simp [splitChar, hc, ih hr]

theorem splitChar_append_sep (sep : Char) (l rest : List Char) (h : sep ∉ l) :
    splitChar sep (l ++ sep :: rest) = l :: splitChar sep rest := by
  induction l with
  | nil => simp [splitChar]
  | cons c t ih =>
    have hc : ¬ (c = sep) := fun hh => h (by simp [hh])
    have ht : sep ∉ t := fun hh => h (List.mem_cons_of_mem _ hh)
    simp only [List.cons_append, splitChar, if_neg hc, List.append_eq]
    rw [ih ht]

theorem splitChar_joinChar (sep : Char) (ls : List (List Char)) (h0 : ls ≠ [])
    (h1 : ∀ l ∈ ls, sep ∉ l) : splitChar sep (joinChar sep ls) = ls := by
  induction ls with
  | nil => exact absurd rfl h0
  | cons l rest ih =>
    cases rest with
    | nil =>
      simp only [joinChar]
      exact splitChar_no_sep sep l (h1 l (by simp))
    | cons l2 rest2 =>
      have hjoin : joinChar sep (l :: l2 :: rest2) = l ++ sep :: joinChar sep (l2 :: rest2) := rfl
      rw [hjoin, splitChar_append_sep sep l _ (h1 l (by simp))]
      rw [ih (by simp) (fun x hx => h1 x (List.mem_cons_of_mem _ hx))]

theorem goSplit_goJoin (ps : List String) (h0 : ps ≠ [])
    (h1 : ∀ p ∈ ps, ',' ∉ p.data) : goSplit ',' (goJoin ',' ps) = ps := by
  unfold goSplit goJoin
  have hd : (String.mk (joinChar ',' (ps.map String.data))).data
      = joinChar ',' (ps.map String.data) := rfl
  rw [hd, splitChar_joinChar ',' (ps.map String.data)
    (by simpa using h0)
    (by intro l hl
        obtain ⟨p, hp, rfl⟩ := List.mem_map.mp hl
        exact h1 p hp)]
  rw [List.map_map]
  have : (String.mk ∘ String.data) = id := by
    funext s
    rfl
  simp [this]

theorem goJoin_ne_empty (ps : List String) (p0 : String) (hmem : p0 ∈ ps)
    (hne : p0 ≠ "") : goJoin ',' ps ≠ "" := by
  intro hcontra
  have hdata : joinChar ',' (ps.map String.data) = [] := by
    have : (goJoin ',' ps).data = ("" : String).data := by rw [hcontra]
    simpa [goJoin] using this
  cases ps with
  | nil => simp at hmem
  | cons q rest =>
    cases rest with
    | nil =>
      simp only [List.mem_cons, List.not_mem_nil, or_false] at hmem
      subst hmem
      simp only [List.map] at hdata
      have : p0.data = [] := by simpa [joinChar] using hdata
      exact hne (String.ext (by simpa using this))
    | cons q2 rest2 =>
      have : joinChar ',' (q.data :: q2.data :: rest2.map String.data)
          = q.data ++ ',' :: joinChar ',' (q2.data :: rest2.map String.data) := rfl
      rw [List.map_cons, List.map_cons, this] at hdata
      simpa using congrArg List.length hdata

/-! ### Lemmas: metadata and partner id round trips -/

theorem mapInsert_fresh (l : List (String × String)) (k v : String)
    (h : ¬ l.any (fun p => p.1 = k)) : mapInsert l k v = l ++ [(k, v)] := by
  unfold mapInsert
  rw [if_neg (by simpa using h)]

theorem mdDecode_fold (md : List (String × String)) (acc : List (String × String))
    (hvalid : ∀ kv ∈ md, goTrim kv.1 = kv.1 ∧ goTrim kv.2 = kv.2 ∧ ':' ∉ kv.1.data)
    (hdisj : ∀ kv ∈ md, ∀ p ∈ acc, p.1 ≠ kv.1)
    (hnodup : (md.map Prod.fst).Nodup) :
    (md.map (fun kv => kv.1 ++ ":" ++ kv.2)).foldl mdParseStep acc = acc ++ md := by
  induction md generalizing acc with
  | nil => simp
  | cons kv rest ih =>
    obtain ⟨htk, htv, hcol⟩ := hvalid kv (by simp)
    have hsplit := goSplitN2Colon_format kv.1 kv.2 hcol
    simp only [List.map_cons, List.foldl_cons, mdParseStep, hsplit, htk, htv]
    have hfresh : ¬ acc.any (fun p => p.1 = kv.1) := by
      simp only [List.any_eq_true, not_exists, not_and]
      intro p hp
      simpa using hdisj kv (by simp) p hp
    rw [mapInsert_fresh acc kv.1 kv.2 hfresh]
    have hnd : (rest.map Prod.fst).Nodup := (List.nodup_cons.mp hnodup).2
    have hknotin : kv.1 ∉ rest.map Prod.fst := (List.nodup_cons.mp hnodup).1
    rw [ih (acc ++ [(kv.1, kv.2)]) (fun kv2 h2 => hvalid kv2 (List.mem_cons_of_mem _ h2))
      (by
        intro kv2 h2 p hp
        rcases List.mem_append.mp hp with hacc | hone
        · exact hdisj kv2 (List.mem_cons_of_mem _ h2) p hacc
        · have hpk : p = (kv.1, kv.2) := by simpa using hone
          subst hpk
          intro hcontra
          exact hknotin (by
            rw [hcontra]
            exact List.mem_map.mpr ⟨kv2, h2, rfl⟩)) hnd]
    simp

theorem partner_decode (ps : List String)
    (hps : ∀ p ∈ ps, p ≠ "" ∧ goTrim p = p ∧ ',' ∉ p.data) (h0 : ps ≠ []) :
    ((goSplit ',' (goJoin ',' ps)).map goTrim).filter (fun s => !decide (s = "")) = ps := by
  rw [goSplit_goJoin ps h0 (fun p hp => (hps p hp).2.2)]
  have hmap : ps.map goTrim = ps := by
    have := List.map_congr_left (l := ps) (f := goTrim) (g := fun p => p)
      (fun p hp => (hps p hp).2.1)
    simpa using this
  rw [hmap]
  exact List.filter_eq_self.mpr (fun p hp => by
    simpa using (hps p hp).1)

/-! ### The octet-stream projection round trip -/

set_option maxHeartbeats 4000000 in
set_option maxRecDepth 8000 in
/-- Reading back a header projection: toHeadersForm under any of the four
styles, merged with the content headers by getHeaders, is inverted by
fromHeaders for a valid message, and the projected payload is the message
payload. -/
theorem octet_header_roundtrip {β : Type} (S : StrExt) (vals ev : List Validator)
    (e : Enc β) (st : String) (msg : Msg) (H : Header) (pl : List Nat)
    (hfr : ∀ t, S.parseType (S.friendly t) = t)
    (hfne : ∀ t, S.friendly t ≠ "")
    (hir : ∀ i, S.readIntStr (S.showInt i) = some i)
    (hine : ∀ i, S.showInt i ≠ "")
    (hv : ∀ mm, runVal vals mm = none)
    (hm : ValidMsg msg)
    (hst : st = styleXXmidt ∨ st = styleXMidt ∨ st = styleXmidt ∨ st = styleXWebpa)
    (henc : toHeadersForm S st ev msg = .ok (H, pl)) :
    pl = msg.payload ∧ fromHeaders S vals (getHeaders e H) (.ok msg.payload) = .ok msg := by
  unfold toHeadersForm at henc
  cases hre : runVal ev msg with
  | some er => rw [hre] at henc; exact absurd henc (by simp)
  | none =>
    rw [hre] at henc
    simp only [Except.ok.injEq, Prod.mk.injEq] at henc
    obtain ⟨hH, hpl⟩ := henc
    refine ⟨hpl.symm, ?_⟩
    subst hH
    unfold styleXXmidt styleXMidt styleXmidt styleXWebpa at hst
    rcases hst with rfl | rfl | rfl | rfl <;>
    · unfold fromHeaders
      simp [hv, hfne, hfr, hir, hine, getHeaders, Hdr.get, Hdr.values, Header.values,
        Header.get_eq_headD,
        apply_ite (fun l : List String => List.headD l ""),
        readString, readInt, readStrings, readHashmap, readHeaders,
        messageTypeHeader, transactionUuidHeader, statusHeader, rdrHeader,
        pathHeader, sourceHeader, destinationHeader, acceptHeader,
        metadataHeader, partnerIdHeader, sessionIdHeader, headersHeader,
        serviceNameHeader, urlHeader, Hdr.as,
        toStringHeader_apply, toIntPtrHeader_apply, mdFold_apply, hdrFold_apply,
        Header.set_apply, Header.add_apply, ite_apply, ite_self,
        List.foldl_cons, List.foldl_nil, List.drop, List.length_cons,
        Header.emp]
      obtain ⟨⟨hnodup, hmdv⟩, hpart, hhdr⟩ := hm
      obtain ⟨t, msrc, mdst, muuid, mpath, macc, msess, msrv, murl, mst, mrdr,
        mps, mmd, mhh, mpld⟩ := msg
      rw [Msg.mk.injEq]
      refine ⟨rfl, ?_, ?_, ?_, ?_, ?_, ?_, ?_, ?_, ?_, ?_, ?_, ?_, ?_, rfl⟩
      · by_cases hc : msrc = "" <;> simp [hc]
      · by_cases hc : mdst = "" <;> simp [hc]
      · by_cases hc : muuid = "" <;> simp [hc]
      · by_cases hc : mpath = "" <;> simp [hc]
      · by_cases hc : macc = "" <;> simp [hc]
      · by_cases hc : msess = "" <;> simp [hc]
      · by_cases hc : msrv = "" <;> simp [hc]
      · by_cases hc : murl = "" <;> simp [hc]
      · cases mst with
        | none => simp
        | some i => simp [hine i, hir i]
      · cases mrdr with
        | none => simp
        | some i => simp [hine i, hir i]
      · by_cases hps : mps = []
        · have hj : goJoin ',' ([] : List String) = "" := rfl
          simp [hps, hj]
        · have hjoin : goJoin ',' mps ≠ "" := by
            obtain ⟨p0, hp0⟩ := List.exists_mem_of_ne_nil mps hps
            exact goJoin_ne_empty mps p0 hp0 ((hpart p0 hp0).1)
          simp only [if_neg hjoin]
          simp [partner_decode mps (fun p hp => hpart p hp) hps]
      · by_cases hmd : mmd = []
        · simp [hmd]
        · have hf : mmd.filter (fun kv => !decide (kv.2 = "")) = mmd :=
            List.filter_eq_self.mpr (fun kv hkv => by simpa using (hmdv kv hkv).2.2.1)
          rw [hf]
          have hlen : 0 < mmd.length := List.length_pos.mpr hmd
          simp only [List.length_map, hlen, if_pos]
          rw [mdDecode_fold mmd [] (fun kv h2 =>
              ⟨(hmdv kv h2).1, (hmdv kv h2).2.1, (hmdv kv h2).2.2.2⟩)
            (by simp) hnodup]
          simp [hlen]
      · by_cases hh : mhh = []
        · simp [hh]
        · have hf : mhh.filter (fun s => !decide (s = "")) = mhh :=
            List.filter_eq_self.mpr (fun s hs => by simpa using hhdr s hs)
          rw [hf]
          have hlen : 0 < mhh.length := List.length_pos.mpr hh
          simp only [hlen, if_pos]
          exact List.filter_eq_self.mpr (fun s hs => by simpa using hhdr s hs)

/-! ### Integration lemmas for the round trip -/

theorem getHeaders_ct {β : Type} (e : Enc β) (h : Header) :
    Header.get (getHeaders e h) "Content-Type" = e.mt := by
  unfold getHeaders
  by_cases hc : e.encoding ≠ "" ∧ e.encoding ≠ "identity" <;>
    simp [hc, Header.get_eq_headD, Header.set_apply]

theorem handleEncoding_getHeaders {β : Type} (D : DecompSet β) (e : Enc β)
    (h : Header) (b : PartBody β)
    (hc : CompInverts D e.encoding e.compFn)
    (hh : h "Content-Encoding" = []) :
    handleEncoding D (getHeaders e h) (e.compFn b) = .ok b := by
  unfold handleEncoding getHeaders
  rcases hc with ⟨he, hl⟩ | ⟨he, hl⟩ | ⟨he, hl⟩ | ⟨he, hl⟩
  · rw [he]
    simp [Header.get_eq_headD, Header.set_apply, hl b]
  · rw [he]
    simp [Header.get_eq_headD, Header.set_apply, hl b]
  · rw [he]
    simp [Header.get_eq_headD, Header.set_apply, hl b]
  · rcases he with he | he <;>
    · rw [he]
      simp [Header.get_eq_headD, Header.set_apply, hh, hl b]

theorem mapExcept_encodeOne {β : Type} (B : MsgCodec β) (vals : List Validator)
    (l : List Msg) (hv : ∀ m, runVal vals m = none) :
    mapExcept (encodeOne B vals) l = .ok (l.map B.enc) := by
  induction l with
  | nil => rfl
  | cons m rest ih =>
    simp [mapExcept, encodeOne, hv m, ih]
    rfl

theorem mapExcept_decodeOne {β : Type} (B : MsgCodec β) (vals : List Validator)
    (l : List Msg)
    (hd : ∀ m, B.dec (B.enc m) = some m)
    (hv : ∀ m, runVal vals m = none) :
    mapExcept (decodeOne B vals) (l.map B.enc) = .ok l := by
  induction l with
  | nil => rfl
  | cons m rest ih =>
    simp [mapExcept, decodeOne, hd m, hv m, ih]
    rfl

theorem chunkList_flatten {α : Type} (c : Nat) (l : List α) :
    (chunkList c l).flatten = l := by
  induction l using chunkList.induct c with
  | case1 => simp [chunkList]
  | case2 x xs ih =>
    rw [chunkList]
    simp only [List.flatten_cons, ih]
    exact List.take_append_drop _ _

theorem exceptBind_ok {γ δ : Type} (x : γ) (f : γ → Except Err δ) :
    (Except.ok x >>= f : Except Err δ) = f x := rfl

theorem parseMediaType_json :
    parseMediaType "application/json" = .ok ("application/json", []) := rfl
theorem parseMediaType_msgpack :
    parseMediaType "application/msgpack" = .ok ("application/msgpack", []) := rfl
theorem parseMediaType_octet :
    parseMediaType "application/octet-stream" = .ok ("application/octet-stream", []) := rfl
theorem parseMediaType_jsonl :
    parseMediaType "application/jsonl" = .ok ("application/jsonl", []) := rfl
theorem parseMediaType_msgpackl :
    parseMediaType "application/msgpackl" = .ok ("application/msgpackl", []) := rfl
theorem parseMediaType_multi :
    parseMediaType ("multipart/mixed; boundary=" ++ boundaryConst) =
      .ok ("multipart/mixed", [("boundary", boundaryConst)]) := rfl
theorem trimMultipart_json : trimMultipart "application/json" = "application/json" := rfl
theorem trimMultipart_msgpack :
    trimMultipart "application/msgpack" = "application/msgpack" := rfl
theorem trimMultipart_octet :
    trimMultipart "application/octet-stream" = "application/octet-stream" := rfl
theorem trimMultipart_jsonl : trimMultipart "application/jsonl" = "application/jsonl" := rfl
theorem trimMultipart_msgpackl :
    trimMultipart "application/msgpackl" = "application/msgpackl" := rfl

/-- Decoding one encoder-produced bulk-format part. -/
theorem fromPart_bulk {β : Type} (C : Codecs β) (S : StrExt) (D : DecompSet β)
    (vals : List Validator) (e : Enc β) (B : MsgCodec β) (m : Msg)
    (hmt : (e.mt = mtJSON ∧ B = C.json) ∨ (e.mt = mtMsgpack ∧ B = C.msgpack))
    (hc : CompInverts D e.encoding e.compFn)
    (hd : ∀ mm, B.dec (B.enc mm) = some mm)
    (hv : ∀ mm, runVal vals mm = none) :
    fromPart C S D vals (getHeaders e) (.ok (e.compFn (.one (B.enc m)))) = .ok [m] := by
  unfold fromPart
  rcases hmt with ⟨hmt, hB⟩ | ⟨hmt, hB⟩ <;>
  · subst hB
    simp only [exceptBind_ok,
      handleEncoding_getHeaders D e Header.emp (.one _) hc rfl,
      getHeaders_ct, hmt]
    simp [mtJSON, mtMsgpack, MEDIA_TYPE_JSON, MEDIA_TYPE_MSGPACK,
      parseMediaType_json, parseMediaType_msgpack,
      trimMultipart_json, trimMultipart_msgpack,
      fromFormat, decodeOne, hd m, hv m, exceptBind_ok, Except.map,
      mtOctetStream, mtJSONL, mtMsgpackL, MEDIA_TYPE_OCTET_STREAM,
      MEDIA_TYPE_JSONL, MEDIA_TYPE_MSGPACKL]

/-- Decoding one encoder-produced line-format part (jsonl or msgpackl). -/
theorem fromPart_lines {β : Type} (C : Codecs β) (S : StrExt) (D : DecompSet β)
    (vals : List Validator) (e : Enc β) (B : MsgCodec β)
    (shape : List β → PartBody β) (ch : List Msg)
    (hmt : (e.mt = mtJSONL ∧ B = C.json ∧ shape = PartBody.lines) ∨
           (e.mt = mtMsgpackL ∧ B = C.msgpack ∧ shape = PartBody.array))
    (hc : CompInverts D e.encoding e.compFn)
    (hd : ∀ mm, B.dec (B.enc mm) = some mm)
    (hv : ∀ mm, runVal vals mm = none) :
    fromPart C S D vals (getHeaders e) (.ok (e.compFn (shape (ch.map B.enc)))) = .ok ch := by
  unfold fromPart
  rcases hmt with ⟨hmt, hB, hs⟩ | ⟨hmt, hB, hs⟩ <;>
  · subst hB
    subst hs
    simp only [exceptBind_ok,
      handleEncoding_getHeaders D e Header.emp _ hc rfl,
      getHeaders_ct, hmt]
    simp [mtJSONL, mtMsgpackL, MEDIA_TYPE_JSONL, MEDIA_TYPE_MSGPACKL,
      parseMediaType_jsonl, parseMediaType_msgpackl,
      trimMultipart_jsonl, trimMultipart_msgpackl,
      fromJSONL, fromMsgpackL, mapExcept_decodeOne _ vals ch hd hv, exceptBind_ok, Except.map,
      mtJSON, mtMsgpack, mtOctetStream, MEDIA_TYPE_JSON, MEDIA_TYPE_MSGPACK,
      MEDIA_TYPE_OCTET_STREAM]

/-- Decoding one encoder-produced octet-stream part: the part headers are
the projected field headers merged with the content headers, the body is
the compressed payload. -/
theorem fromPart_octet {β : Type} (C : Codecs β) (S : StrExt) (D : DecompSet β)
    (vals ev : List Validator) (e : Enc β) (m : Msg) (H : Header) (pl : List Nat)
    (hmt : e.mt = mtOctetStream)
    (hc : CompInverts D e.encoding e.compFn)
    (hfr : ∀ t, S.parseType (S.friendly t) = t)
    (hfne : ∀ t, S.friendly t ≠ "")
    (hir : ∀ i, S.readIntStr (S.showInt i) = some i)
    (hine : ∀ i, S.showInt i ≠ "")
    (hv : ∀ mm, runVal vals mm = none)
    (hm : ValidMsg m)
    (hst : e.style = styleXXmidt ∨ e.style = styleXMidt ∨ e.style = styleXmidt ∨
      e.style = styleXWebpa)
    (henc : toHeadersForm S e.style ev m = .ok (H, pl)) :
    fromPart C S D vals (getHeaders e H) (.ok (e.compFn (.bytes pl))) = .ok [m] := by
  obtain ⟨hpl, hdec⟩ := octet_header_roundtrip S vals ev e e.style m H pl
    hfr hfne hir hine hv hm hst henc
  subst hpl
  have hce : H "Content-Encoding" = [] := by
    unfold toHeadersForm at henc
    cases hre : runVal ev m with
    | some er => rw [hre] at henc; exact absurd henc (by simp)
    | none =>
      rw [hre] at henc
      simp only [Except.ok.injEq, Prod.mk.injEq] at henc
      obtain ⟨hH, _⟩ := henc
      subst hH
      rcases hst with hs | hs | hs | hs <;>
      · rw [hs]
        simp [styleXXmidt, styleXMidt, styleXmidt, styleXWebpa,
          toStringHeader_apply, toIntPtrHeader_apply, mdFold_apply,
          hdrFold_apply, Header.set_apply, Header.add_apply, ite_apply,
          ite_self, Hdr.as, messageTypeHeader, transactionUuidHeader,
          statusHeader, rdrHeader, pathHeader, sourceHeader,
          destinationHeader, acceptHeader, metadataHeader, partnerIdHeader,
          sessionIdHeader, headersHeader, serviceNameHeader, urlHeader,
          Header.emp]
  unfold fromPart
  simp only [exceptBind_ok,
    handleEncoding_getHeaders D e H (.bytes m.payload) hc hce,
    getHeaders_ct, hmt]
  simp only [mtOctetStream, MEDIA_TYPE_OCTET_STREAM, parseMediaType_octet,
    exceptBind_ok, trimMultipart_octet]
  simp [mtJSON, mtMsgpack, MEDIA_TYPE_JSON, MEDIA_TYPE_MSGPACK,
    fromOctetStream, hdec, mtJSONL, mtMsgpackL, MEDIA_TYPE_JSONL, Except.map,
    MEDIA_TYPE_MSGPACKL, mtOctetStream, MEDIA_TYPE_OCTET_STREAM]

theorem goHasPfx_json : goHasPfx "application/json" "multipart/" = false := rfl
theorem goHasPfx_msgpack : goHasPfx "application/msgpack" "multipart/" = false := rfl
theorem goHasPfx_octet : goHasPfx "application/octet-stream" "multipart/" = false := rfl
theorem goHasPfx_jsonl : goHasPfx "application/jsonl" "multipart/" = false := rfl
theorem goHasPfx_msgpackl : goHasPfx "application/msgpackl" "multipart/" = false := rfl
theorem goHasPfx_multi : goHasPfx "multipart/mixed" "multipart/" = true := rfl

theorem multiHeaders_ct {β : Type} (e : Enc β) :
    Header.get (multiHeaders e) "Content-Type" =
      "multipart/mixed; boundary=" ++ boundaryConst := by
  unfold multiHeaders
  simp [Header.get_eq_headD, Header.set_apply]

theorem toHeadersForm_ok (S : StrExt) (st : String) (ev : List Validator)
    (m : Msg) (hev : runVal ev m = none) :
    ∃ H, toHeadersForm S st ev m = .ok (H, m.payload) := by
  unfold toHeadersForm
  rw [hev]
  exact ⟨_, rfl⟩

theorem asFormatParts_ok {β : Type} (B : MsgCodec β) (e : Enc β) (msgs : List Msg)
    (hev : ∀ m, runVal e.validator m = none) :
    asFormatParts B e msgs =
      (msgs.map (fun m => (getHeaders e, e.compFn (.one (B.enc m)))), none) := by
  induction msgs with
  | nil => rfl
  | cons m rest ih =>
    simp [asFormatParts, encodeOne, hev m, ih]

theorem chunkedParts_ok {β : Type} (B : MsgCodec β) (e : Enc β)
    (shape : List β → PartBody β) (chunks : List (List Msg))
    (hev : ∀ m, runVal e.validator m = none) :
    chunkedParts e (fun ch => (encodeList B e.validator ch).map shape) chunks =
      (chunks.map (fun ch => (getHeaders e, e.compFn (shape (ch.map B.enc)))), none) := by
  induction chunks with
  | nil => rfl
  | cons ch rest ih =>
    have hmk : Except.map shape (encodeList B e.validator ch) =
        .ok (shape (ch.map B.enc)) := by
      unfold encodeList
      rw [mapExcept_encodeOne B e.validator ch hev]
      rfl
    simp only [chunkedParts, hmk, ih]
    simp

theorem decodeParts_bulk {β : Type} (C : Codecs β) (S : StrExt) (D : DecompSet β)
    (vals : List Validator) (e : Enc β) (B : MsgCodec β) (msgs : List Msg)
    (hmt : (e.mt = mtJSON ∧ B = C.json) ∨ (e.mt = mtMsgpack ∧ B = C.msgpack))
    (hc : CompInverts D e.encoding e.compFn)
    (hd : ∀ mm, B.dec (B.enc mm) = some mm)
    (hv : ∀ mm, runVal vals mm = none) :
    decodeParts C S D vals
      (msgs.map (fun m => (getHeaders e, e.compFn (.one (B.enc m))))) none =
      .ok msgs := by
  induction msgs with
  | nil => rfl
  | cons m rest ih =>
    simp only [List.map_cons, decodeParts,
      fromPart_bulk C S D vals e B m hmt hc hd hv, exceptBind_ok, ih]
    rfl

theorem decodeParts_chunks {β : Type} (C : Codecs β) (S : StrExt) (D : DecompSet β)
    (vals : List Validator) (e : Enc β) (B : MsgCodec β)
    (shape : List β → PartBody β) (chunks : List (List Msg))
    (hmt : (e.mt = mtJSONL ∧ B = C.json ∧ shape = PartBody.lines) ∨
           (e.mt = mtMsgpackL ∧ B = C.msgpack ∧ shape = PartBody.array))
    (hc : CompInverts D e.encoding e.compFn)
    (hd : ∀ mm, B.dec (B.enc mm) = some mm)
    (hv : ∀ mm, runVal vals mm = none) :
    decodeParts C S D vals
      (chunks.map (fun ch => (getHeaders e, e.compFn (shape (ch.map B.enc))))) none =
      .ok chunks.flatten := by
  induction chunks with
  | nil => rfl
  | cons ch rest ih =>
    simp only [List.map_cons, decodeParts,
      fromPart_lines C S D vals e B shape ch hmt hc hd hv, exceptBind_ok, ih]
    rfl

theorem decodeParts_octet {β : Type} (C : Codecs β) (S : StrExt) (D : DecompSet β)
    (vals : List Validator) (e : Enc β) (msgs : List Msg)
    (hmt : e.mt = mtOctetStream)
    (hc : CompInverts D e.encoding e.compFn)
    (hfr : ∀ t, S.parseType (S.friendly t) = t)
    (hfne : ∀ t, S.friendly t ≠ "")
    (hir : ∀ i, S.readIntStr (S.showInt i) = some i)
    (hine : ∀ i, S.showInt i ≠ "")
    (hv : ∀ mm, runVal vals mm = none)
    (hev : ∀ mm, runVal e.validator mm = none)
    (hms : ∀ m ∈ msgs, ValidMsg m)
    (hst : e.style = styleXXmidt ∨ e.style = styleXMidt ∨ e.style = styleXmidt ∨
      e.style = styleXWebpa) :
    decodeParts C S D vals (asOctetStreamParts S e msgs).1
      (asOctetStreamParts S e msgs).2 = .ok msgs ∧
    (asOctetStreamParts S e msgs).2 = none := by
  induction msgs with
  | nil => exact ⟨rfl, rfl⟩
  | cons m rest ih =>
    obtain ⟨H, hH⟩ := toHeadersForm_ok S e.style e.validator m (hev m)
    obtain ⟨ih1, ih2⟩ := ih (fun mm hm => hms mm (List.mem_cons_of_mem _ hm))
    rw [show asOctetStreamParts S e (m :: rest) =
        ((getHeaders e H, e.compFn (.bytes m.payload)) ::
          (asOctetStreamParts S e rest).1, (asOctetStreamParts S e rest).2) by
      conv_lhs => rw [asOctetStreamParts]
      rw [hH]]
    refine ⟨?_, ih2⟩
    simp only [decodeParts,
      fromPart_octet C S D vals e.validator e m H m.payload hmt hc hfr hfne hir
        hine hv (hms m (by simp)) hst hH, exceptBind_ok]
    rw [ih1]
    rfl

theorem DecodeFromParts_single {β : Type} (C : Codecs β) (S : StrExt)
    (D : DecompSet β) (vals : List Validator) (h : Header)
    (bodyE : Except Err (PartBody β)) (ct : String)
    (hct : Header.get h "Content-Type" = ct)
    (hparse : parseMediaType ct = .ok (ct, []))
    (hpfx : goHasPfx ct "multipart/" = false) :
    DecodeFromParts C S D vals h (.single bodyE) = fromPart C S D vals h bodyE := by
  unfold DecodeFromParts
  rw [hct, hparse]
  simp [hpfx]

theorem DecodeFromParts_multi {β : Type} (C : Codecs β) (S : StrExt)
    (D : DecompSet β) (vals : List Validator) (h : Header)
    (parts : List (Header × PartBody β)) (terr : Option Err)
    (hct : Header.get h "Content-Type" = "multipart/mixed; boundary=" ++ boundaryConst) :
    DecodeFromParts C S D vals h (.multi parts terr) =
      decodeParts C S D vals parts terr := by
  unfold DecodeFromParts
  rw [hct, parseMediaType_multi]
  simp only [goHasPfx_multi]
  rw [if_neg (by simp)]
  rw [if_neg (by decide)]
  rw [if_neg (by decide)]

set_option maxHeartbeats 2000000 in
/-- The full encode and decode round trip: for any of the five base
formats, any of the four octet-stream styles, and any compressor inverted
by its decoder, a valid message list comes back exactly. -/
theorem roundTrip_ok {β : Type} (C : Codecs β) (S : StrExt) (D : DecompSet β)
    (e : Enc β) (vals : List Validator) (msgs : List Msg)
    (hmt : e.mt = mtJSON ∨ e.mt = mtMsgpack ∨ e.mt = mtOctetStream ∨
      e.mt = mtJSONL ∨ e.mt = mtMsgpackL)
    (hst : e.style = styleXXmidt ∨ e.style = styleXMidt ∨ e.style = styleXmidt ∨
      e.style = styleXWebpa)
    (hc : CompInverts D e.encoding e.compFn)
    (hdj : ∀ mm, C.json.dec (C.json.enc mm) = some mm)
    (hdm : ∀ mm, C.msgpack.dec (C.msgpack.enc mm) = some mm)
    (hfr : ∀ t, S.parseType (S.friendly t) = t)
    (hfne : ∀ t, S.friendly t ≠ "")
    (hir : ∀ i, S.readIntStr (S.showInt i) = some i)
    (hine : ∀ i, S.showInt i ≠ "")
    (hv : ∀ mm, runVal vals mm = none)
    (hev : ∀ mm, runVal e.validator mm = none)
    (hne : msgs ≠ [])
    (hms : ∀ m ∈ msgs, ValidMsg m) :
    roundTrip C S D e vals msgs = .ok msgs := by
  unfold roundTrip
  rcases hmt with hmt | hmt | hmt | hmt | hmt
  · -- JSON
    match msgs, hne, hms with
    | [m], _, hms =>
      have htp : toParts C S e [m] = .ok (getHeaders e, asFormatSingle C.json e m) := by
        unfold toParts
        rw [if_neg (show ¬([m] = ([] : List Msg)) by simp),
          if_pos (Or.inl hmt), if_pos hmt]
      rw [htp]
      show DecodeFromParts C S D vals (getHeaders e) (asFormatSingle C.json e m) =
        .ok [m]
      unfold asFormatSingle
      rw [show encodeOne C.json e.validator m = .ok (C.json.enc m) by
        unfold encodeOne; rw [hev m]]
      show DecodeFromParts C S D vals (getHeaders e)
        (.single (.ok (e.compFn (.one (C.json.enc m))))) = .ok [m]
      rw [DecodeFromParts_single C S D vals _ _ "application/json"
        (by rw [getHeaders_ct, hmt]; rfl) parseMediaType_json goHasPfx_json]
      exact fromPart_bulk C S D vals e C.json m (Or.inl ⟨hmt, rfl⟩) hc hdj hv
    | m :: m2 :: rest, _, hms =>
      have htp : toParts C S e (m :: m2 :: rest) = .ok (multiHeaders e,
          .multi ((m :: m2 :: rest).map
            (fun mm => (getHeaders e, e.compFn (.one (C.json.enc mm))))) none) := by
        unfold toParts
        rw [if_neg (show ¬(m :: m2 :: rest = ([] : List Msg)) by simp),
          if_pos (Or.inl hmt), if_pos hmt]
        simp only []
        rw [asFormatParts_ok C.json e (m :: m2 :: rest) hev]
      rw [htp]
      show DecodeFromParts C S D vals (multiHeaders e) _ = .ok (m :: m2 :: rest)
      rw [DecodeFromParts_multi C S D vals _ _ _ (multiHeaders_ct e)]
      exact decodeParts_bulk C S D vals e C.json (m :: m2 :: rest)
        (Or.inl ⟨hmt, rfl⟩) hc hdj hv
  · -- Msgpack
    have hBm : (if e.mt = mtJSON then C.json else C.msgpack) = C.msgpack := by
      rw [if_neg (by rw [hmt]; decide)]
    match msgs, hne, hms with
    | [m], _, hms =>
      have htp : toParts C S e [m] = .ok (getHeaders e, asFormatSingle C.msgpack e m) := by
        unfold toParts
        rw [if_neg (show ¬([m] = ([] : List Msg)) by simp),
          if_pos (Or.inr hmt)]
        rw [show (match [m] with
            | [mm] => Except.ok (getHeaders e,
                asFormatSingle (if e.mt = mtJSON then C.json else C.msgpack) e mm)
            | x => (match asFormatParts (if e.mt = mtJSON then C.json else C.msgpack) e [m] with
                | (ps, t) => Except.ok (multiHeaders e, BodyStream.multi ps t))) =
          Except.ok (getHeaders e,
            asFormatSingle (if e.mt = mtJSON then C.json else C.msgpack) e m) from rfl]
        rw [hBm]
      rw [htp]
      show DecodeFromParts C S D vals (getHeaders e) (asFormatSingle C.msgpack e m) =
        .ok [m]
      unfold asFormatSingle
      rw [show encodeOne C.msgpack e.validator m = .ok (C.msgpack.enc m) by
        unfold encodeOne; rw [hev m]]
      show DecodeFromParts C S D vals (getHeaders e)
        (.single (.ok (e.compFn (.one (C.msgpack.enc m))))) = .ok [m]
      rw [DecodeFromParts_single C S D vals _ _ "application/msgpack"
        (by rw [getHeaders_ct, hmt]; rfl) parseMediaType_msgpack goHasPfx_msgpack]
      exact fromPart_bulk C S D vals e C.msgpack m (Or.inr ⟨hmt, rfl⟩) hc hdm hv
    | m :: m2 :: rest, _, hms =>
      have htp : toParts C S e (m :: m2 :: rest) = .ok (multiHeaders e,
          .multi ((m :: m2 :: rest).map
            (fun mm => (getHeaders e, e.compFn (.one (C.msgpack.enc mm))))) none) := by
        unfold toParts
        rw [if_neg (show ¬(m :: m2 :: rest = ([] : List Msg)) by simp),
          if_pos (Or.inr hmt), hBm]
        simp only []
        rw [asFormatParts_ok C.msgpack e (m :: m2 :: rest) hev]
      rw [htp]
      show DecodeFromParts C S D vals (multiHeaders e) _ = .ok (m :: m2 :: rest)
      rw [DecodeFromParts_multi C S D vals _ _ _ (multiHeaders_ct e)]
      exact decodeParts_bulk C S D vals e C.msgpack (m :: m2 :: rest)
        (Or.inr ⟨hmt, rfl⟩) hc hdm hv
  · -- octet-stream
    match msgs, hne, hms with
    | [m], _, hms =>
      obtain ⟨H, hH⟩ := toHeadersForm_ok S e.style e.validator m (hev m)
      have htp : toParts C S e [m] =
          .ok (getHeaders e H, .single (.ok (e.compFn (.bytes m.payload)))) := by
        unfold toParts
        rw [if_neg (show ¬([m] = ([] : List Msg)) by simp),
          if_neg (by rw [hmt]; decide), if_pos hmt]
        show asOctetStreamSingle S e m = _
        unfold asOctetStreamSingle
        rw [hH]
      rw [htp]
      show DecodeFromParts C S D vals (getHeaders e H)
        (.single (.ok (e.compFn (.bytes m.payload)))) = .ok [m]
      rw [DecodeFromParts_single C S D vals _ _ "application/octet-stream"
        (by rw [getHeaders_ct, hmt]; rfl) parseMediaType_octet goHasPfx_octet]
      exact fromPart_octet C S D vals e.validator e m H m.payload hmt hc hfr hfne
        hir hine hv (hms m (by simp)) hst hH
    | m :: m2 :: rest, _, hms =>
      obtain ⟨hdec, hterr⟩ := decodeParts_octet C S D vals e (m :: m2 :: rest)
        hmt hc hfr hfne hir hine hv hev hms hst
      have htp : toParts C S e (m :: m2 :: rest) = .ok (multiHeaders e,
          .multi (asOctetStreamParts S e (m :: m2 :: rest)).1
            (asOctetStreamParts S e (m :: m2 :: rest)).2) := by
        unfold toParts
        rw [if_neg (show ¬(m :: m2 :: rest = ([] : List Msg)) by simp),
          if_neg (by rw [hmt]; decide), if_pos hmt]
      rw [htp]
      show DecodeFromParts C S D vals (multiHeaders e) _ = .ok (m :: m2 :: rest)
      rw [DecodeFromParts_multi C S D vals _ _ _ (multiHeaders_ct e)]
      exact hdec
  · -- JSONL
    have htp0 : toParts C S e msgs = .ok (asLineFormat C.json e PartBody.lines msgs) := by
      unfold toParts
      rw [if_neg hne, if_neg (by rw [hmt]; decide), if_neg (by rw [hmt]; decide),
        if_neg (by rw [hmt]; decide), if_pos hmt]
    rw [htp0]
    unfold asLineFormat
    by_cases hsingle : e.maxItems < 1 ∨ (msgs.length : Int) ≤ e.maxItems
    · rw [if_pos hsingle]
      rw [show encodeList C.json e.validator msgs = .ok (msgs.map C.json.enc) from
        mapExcept_encodeOne C.json e.validator msgs hev]
      show DecodeFromParts C S D vals (getHeaders e)
        (.single (.ok (e.compFn (.lines (msgs.map C.json.enc))))) = .ok msgs
      rw [DecodeFromParts_single C S D vals _ _ "application/jsonl"
        (by rw [getHeaders_ct, hmt]; rfl) parseMediaType_jsonl goHasPfx_jsonl]
      exact fromPart_lines C S D vals e C.json PartBody.lines msgs
        (Or.inl ⟨hmt, rfl, rfl⟩) hc hdj hv
    · rw [if_neg hsingle]
      simp only []
      rw [chunkedParts_ok C.json e PartBody.lines (chunkList e.maxItems.toNat msgs) hev]
      show DecodeFromParts C S D vals (multiHeaders e)
        (.multi ((chunkList e.maxItems.toNat msgs).map
          (fun ch => (getHeaders e, e.compFn (.lines (ch.map C.json.enc))))) none) =
        .ok msgs
      rw [DecodeFromParts_multi C S D vals _ _ _ (multiHeaders_ct e)]
      rw [decodeParts_chunks C S D vals e C.json PartBody.lines
        (chunkList e.maxItems.toNat msgs) (Or.inl ⟨hmt, rfl, rfl⟩) hc hdj hv]
      rw [chunkList_flatten]
  · -- MsgpackL
    have htp0 : toParts C S e msgs = .ok (asLineFormat C.msgpack e PartBody.array msgs) := by
      unfold toParts
      rw [if_neg hne, if_neg (by rw [hmt]; decide), if_neg (by rw [hmt]; decide),
        if_pos hmt]
    rw [htp0]
    unfold asLineFormat
    by_cases hsingle : e.maxItems < 1 ∨ (msgs.length : Int) ≤ e.maxItems
    · rw [if_pos hsingle]
      rw [show encodeList C.msgpack e.validator msgs = .ok (msgs.map C.msgpack.enc) from
        mapExcept_encodeOne C.msgpack e.validator msgs hev]
      show DecodeFromParts C S D vals (getHeaders e)
        (.single (.ok (e.compFn (.array (msgs.map C.msgpack.enc))))) = .ok msgs
      rw [DecodeFromParts_single C S D vals _ _ "application/msgpackl"
        (by rw [getHeaders_ct, hmt]; rfl) parseMediaType_msgpackl goHasPfx_msgpackl]
      exact fromPart_lines C S D vals e C.msgpack PartBody.array msgs
        (Or.inr ⟨hmt, rfl, rfl⟩) hc hdm hv
    · rw [if_neg hsingle]
      simp only []
      rw [chunkedParts_ok C.msgpack e PartBody.array (chunkList e.maxItems.toNat msgs) hev]
      show DecodeFromParts C S D vals (multiHeaders e)
        (.multi ((chunkList e.maxItems.toNat msgs).map
          (fun ch => (getHeaders e, e.compFn (.array (ch.map C.msgpack.enc))))) none) =
        .ok msgs
      rw [DecodeFromParts_multi C S D vals _ _ _ (multiHeaders_ct e)]
      rw [decodeParts_chunks C S D vals e C.msgpack PartBody.array
        (chunkList e.maxItems.toNat msgs) (Or.inr ⟨hmt, rfl, rfl⟩) hc hdm hv]
      rw [chunkList_flatten]

/-! ### Chunk arithmetic -/

theorem chunkList_ne_nil {α : Type} (c : Nat) (l : List α) (h : l ≠ []) :
    chunkList c l ≠ [] := by
  cases l with
  | nil => exact absurd rfl h
  | cons x xs => rw [chunkList]; simp

theorem ceilDiv_shift (n c : Nat) (hn : 1 ≤ n) (hc : 1 ≤ c) :
    (n + c - 1) / c = (n - 1) / c + 1 := by
  have h : n + c - 1 = (n - 1) + c := by omega
  rw [h, Nat.add_div_right _ (by omega)]

theorem chunkList_length {α : Type} (c : Nat) (l : List α) (hc : 1 ≤ c)
    (hne : l ≠ []) : (chunkList c l).length = (l.length - 1) / c + 1 := by
  induction l using chunkList.induct c with
  | case1 => exact absurd rfl hne
  | case2 x xs ih =>
    rw [chunkList]
    have hmax : max c 1 = c := by omega
    rw [hmax] at ih ⊢
    by_cases hlen : (x :: xs).length ≤ c
    · have hdrop : (x :: xs).drop c = [] := by
        rw [List.drop_eq_nil_iff]
        omega
      rw [hdrop]
      simp only [chunkList, List.length_cons, List.length_nil]
      rw [Nat.div_eq_of_lt (by simp only [List.length_cons] at hlen; omega)]
    · have hgt : c < (x :: xs).length := by omega
      have hdne : (x :: xs).drop c ≠ [] := by
        rw [Ne, List.drop_eq_nil_iff]
        omega
      rw [List.length_cons, ih hdne]
      have hdl : ((x :: xs).drop c).length = (x :: xs).length - c := by simp
      rw [hdl]
      have heq : (x :: xs).length - 1 = ((x :: xs).length - c - 1) + c := by
        omega
      rw [heq, Nat.add_div_right _ (by omega)]

theorem chunkList_dropLast_length {α : Type} (c : Nat) (l : List α) (hc : 1 ≤ c) :
    ∀ ch ∈ (chunkList c l).dropLast, ch.length = c := by
  induction l using chunkList.induct c with
  | case1 => simp [chunkList]
  | case2 x xs ih =>
    rw [chunkList]
    have hmax : max c 1 = c := by omega
    rw [hmax] at ih ⊢
    by_cases hlen : (x :: xs).length ≤ c
    · have hdrop : (x :: xs).drop c = [] := by
        rw [List.drop_eq_nil_iff]
        omega
      rw [hdrop]
      simp [chunkList]
    · have hgt : c < (x :: xs).length := by omega
      have hdne : (x :: xs).drop c ≠ [] := by
        rw [Ne, List.drop_eq_nil_iff]
        omega
      rw [List.dropLast_cons_of_ne_nil (chunkList_ne_nil c _ hdne)]
      intro ch hch
      rcases List.mem_cons.mp hch with rfl | hch
      · rw [List.length_take]
        omega
      · exact ih ch hch

theorem chunkList_getLast_length {α : Type} (c : Nat) (l : List α) (hc : 1 ≤ c)
    (hne : l ≠ []) :
    ∀ lastCh ∈ (chunkList c l).getLast?,
      lastCh.length = if l.length % c = 0 then c else l.length % c := by
  induction l using chunkList.induct c with
  | case1 => exact absurd rfl hne
  | case2 x xs ih =>
    rw [chunkList]
    have hmax : max c 1 = c := by omega
    rw [hmax] at ih ⊢
    by_cases hlen : (x :: xs).length ≤ c
    · have hdrop : (x :: xs).drop c = [] := by
        rw [List.drop_eq_nil_iff]
        omega
      rw [hdrop]
      intro lastCh hl
      simp only [chunkList, List.getLast?_singleton, Option.mem_def,
        Option.some.injEq] at hl
      subst hl
      rw [List.length_take]
      have h1 : (x :: xs).length ≠ 0 := by simp
      by_cases he : (x :: xs).length % c = 0
      · have : (x :: xs).length = c := by
          rcases Nat.lt_or_ge (x :: xs).length c with hlt | hge
          · exact absurd (Nat.mod_eq_of_lt hlt ▸ he) h1
          · omega
        rw [if_pos he, this]
        omega
      · rw [if_neg he]
        have hltc : (x :: xs).length < c := by
          rcases Nat.lt_or_ge (x :: xs).length c with hlt | hge
          · exact hlt
          · have : (x :: xs).length = c := by omega
            rw [this] at he
            exact absurd (Nat.mod_self c) he
        rw [Nat.mod_eq_of_lt hltc]
        omega
    · have hgt : c < (x :: xs).length := by omega
      have hdne : (x :: xs).drop c ≠ [] := by
        rw [Ne, List.drop_eq_nil_iff]
        omega
      have hcne := chunkList_ne_nil c _ hdne
      rw [show (List.take c (x :: xs) :: chunkList c (List.drop c (x :: xs))).getLast? =
          (chunkList c (List.drop c (x :: xs))).getLast? by
        cases hk : chunkList c (List.drop c (x :: xs)) with
        | nil => exact absurd hk hcne
        | cons b t => rw [List.getLast?_cons_cons]]
      intro lastCh hl
      have hres := ih hdne lastCh hl
      have hdl : ((x :: xs).drop c).length = (x :: xs).length - c := by simp
      rw [hdl] at hres
      have hmod : ((x :: xs).length - c) % c = (x :: xs).length % c :=
        (Nat.mod_eq_sub_mod (by omega)).symm
      rw [hmod] at hres
      exact hres

/-! ### Witness instance laws -/

theorem wStr_parse_friendly : ∀ t, wStr.parseType (wStr.friendly t) = t := by
  intro t
  show (String.mk (List.replicate (t + 1) 'x')).data.length - 1 = t
  simp

theorem wStr_friendly_ne : ∀ t, wStr.friendly t ≠ "" := by
  intro t h
  have h2 := congrArg String.data h
  simp [wStr] at h2

theorem wStr_read_show : ∀ i, wStr.readIntStr (wStr.showInt i) = some i := by
  intro i
  cases i with
  | ofNat n => show unaryRead (unaryShow (.ofNat n)) = some (.ofNat n); simp [unaryShow, unaryRead]
  | negSucc n => show unaryRead (unaryShow (.negSucc n)) = some (.negSucc n); simp [unaryShow, unaryRead]

theorem wStr_show_ne : ∀ i, wStr.showInt i ≠ "" := by
  intro i h
  have h2 := congrArg String.data h
  cases i with
  | ofNat n => simp [wStr, unaryShow] at h2
  | negSucc n => simp [wStr, unaryShow] at h2

/-! ### Claim C6 -/

/-- C6: encoding a message list of length 0 always fails (Encoder.ToParts
with zero messages returns an error and no header set or body), and
decoding a nil request via DecodeRequest or a nil response via
DecodeResponse always returns an error. -/
theorem C6_empty_input_and_nil_decode {β : Type} (C : Codecs β) (S : StrExt)
    (D : DecompSet β) (e : Enc β) (vals : List Validator) :
    toParts C S e [] = .error .emptyInput ∧
    DecodeRequest C S D vals none = .error .nilRequest ∧
    DecodeResponse C S D vals none = .error .nilResponse :=
  ⟨rfl, rfl, rfl⟩

/-! ### Claim C9 -/

theorem insertLeStr_perm (x : String) (l : List String) :
    (insertLeStr x l).Perm (x :: l) := by
  induction l with
  | nil => exact List.Perm.refl _
  | cons y ys ih =>
    unfold insertLeStr
    by_cases hle : x ≤ y
    · rw [if_pos hle]
    · rw [if_neg hle]
      exact (ih.cons y).trans (List.Perm.swap x y ys)

theorem sortStrings_perm (l : List String) : (sortStrings l).Perm l := by
  induction l with
  | nil => exact List.Perm.refl _
  | cons x xs ih =>
    unfold sortStrings
    exact (insertLeStr_perm x (sortStrings xs)).trans (ih.cons x)

/-- C9: AllMediaTypes returns exactly the 9 supported canonical media type
strings (the 5 base types and the 4 octet-stream style variants); the order
of the returned sequence carries no significance, so the content is stated
up to permutation, and membership coincides with the registry lookup. -/
theorem C9_all_media_types :
    AllMediaTypes.length = 9 ∧
    AllMediaTypes.Perm
      [MEDIA_TYPE_JSON, MEDIA_TYPE_MSGPACK, MEDIA_TYPE_OCTET_STREAM,
       MEDIA_TYPE_JSONL, MEDIA_TYPE_MSGPACKL,
       MEDIA_TYPE_OCTET_STREAM_X_XMIDT_STYLE, MEDIA_TYPE_OCTET_STREAM_X_MIDT_STYLE,
       MEDIA_TYPE_OCTET_STREAM_XMIDT_STYLE, MEDIA_TYPE_OCTET_STREAM_WEBPA_STYLE] ∧
    ∀ s, (mtFromString? s).isSome ↔ s ∈ AllMediaTypes := by
  refine ⟨?_, ?_, ?_⟩
  · show (sortStrings (mtFromStringPairs.map (fun p => p.1))).length = 9
    rw [(sortStrings_perm _).length_eq]
    rfl
  · show (sortStrings (mtFromStringPairs.map (fun p => p.1))).Perm _
    exact sortStrings_perm _
  intro s
  have hmem : s ∈ AllMediaTypes ↔ s ∈ mtFromStringPairs.map Prod.fst :=
    (sortStrings_perm (mtFromStringPairs.map Prod.fst)).mem_iff
  rw [hmem]
  unfold mtFromString?
  constructor
  · intro hs
    cases hf : mtFromStringPairs.find? (fun p => p.1 = s) with
    | none => rw [hf] at hs; simp at hs
    | some p =>
      have hp := List.find?_some hf
      have hmemp := List.mem_of_find?_eq_some hf
      exact List.mem_map.mpr ⟨p, hmemp, by simpa using hp⟩
  · intro hs
    obtain ⟨p, hp, hps⟩ := List.mem_map.mp hs
    have hsome : (mtFromStringPairs.find? (fun q => q.1 = s)).isSome := by
      rw [List.find?_isSome]
      exact ⟨p, hp, by simpa using hps⟩
    obtain ⟨x, hx⟩ := Option.isSome_iff_exists.mp hsome
    rw [hx]
    rfl

/-! ### Claim C8 -/

/-- C8: during octet-stream decode, a Status or Request-Delivery-Response
header whose value does not parse as an integer is silently ignored (the
field stays unset) and decoding does not fail on its account; with a
readable body and passing validators fromHeaders never returns an error,
and a parsable value is the only way the field gets set. -/
theorem C8_unparsable_int_ignored (S : StrExt) (vals : List Validator)
    (h : Header) (bs : List Nat)
    (hv : ∀ mm, runVal vals mm = none) :
    ∃ m, fromHeaders S vals h (.ok bs) = .ok m ∧
      (S.readIntStr (Hdr.get statusHeader h) = none → m.status = none) ∧
      (S.readIntStr (Hdr.get rdrHeader h) = none →
        m.requestDeliveryResponse = none) ∧
      (∀ i, Hdr.get statusHeader h ≠ "" →
        S.readIntStr (Hdr.get statusHeader h) = some i → m.status = some i) := by
  unfold fromHeaders
  simp only [hv]
  have hstat : ∀ hnone : S.readIntStr (Hdr.get statusHeader h) = none,
      readInt S h statusHeader none = none := by
    intro hnone
    unfold readInt
    by_cases hg : Hdr.get statusHeader h ≠ ""
    · rw [if_pos hg, hnone]
    · rw [if_neg hg]
  have hrdr : ∀ hnone : S.readIntStr (Hdr.get rdrHeader h) = none,
      readInt S h rdrHeader none = none := by
    intro hnone
    unfold readInt
    by_cases hg : Hdr.get rdrHeader h ≠ ""
    · rw [if_pos hg, hnone]
    · rw [if_neg hg]
  have hset : ∀ i, Hdr.get statusHeader h ≠ "" →
      S.readIntStr (Hdr.get statusHeader h) = some i →
      readInt S h statusHeader none = some i := by
    intro i hne hsome
    unfold readInt
    rw [if_pos hne, hsome]
  by_cases hmt : Hdr.get messageTypeHeader h ≠ ""
  · rw [if_pos hmt]
    exact ⟨_, rfl, fun hn => hstat hn, fun hn => hrdr hn, fun i a b => hset i a b⟩
  · rw [if_neg hmt]
    exact ⟨_, rfl, fun hn => hstat hn, fun hn => hrdr hn, fun i a b => hset i a b⟩

theorem C8_unparsable_int_ignored_witness :
    wStr.readIntStr "x" = none ∧
    ∃ m, fromHeaders wStr [] (hOf [("X-Xmidt-Status", ["x"])]) (.ok []) = .ok m ∧
      (wStr.readIntStr (Hdr.get statusHeader (hOf [("X-Xmidt-Status", ["x"])])) =
        none → m.status = none) ∧
      (wStr.readIntStr (Hdr.get rdrHeader (hOf [("X-Xmidt-Status", ["x"])])) =
        none → m.requestDeliveryResponse = none) ∧
      (∀ i, Hdr.get statusHeader (hOf [("X-Xmidt-Status", ["x"])]) ≠ "" →
        wStr.readIntStr (Hdr.get statusHeader (hOf [("X-Xmidt-Status", ["x"])])) =
          some i → m.status = some i) :=
  ⟨rfl, C8_unparsable_int_ignored wStr [] (hOf [("X-Xmidt-Status", ["x"])]) []
    (fun _ => rfl)⟩

/-! ### Claim C10 -/

theorem asOctetStreamParts_fail {β : Type} (S : StrExt) (e : Enc β)
    (good : List Msg) (bad : Msg) (rest : List Msg) (err : Err)
    (hg : ∀ m ∈ good, runVal e.validator m = none)
    (hb : runVal e.validator bad = some err) :
    ∃ ps, asOctetStreamParts S e (good ++ bad :: rest) = (ps, some err) ∧
      ps.length = good.length := by
  induction good with
  | nil =>
    refine ⟨[], ?_, rfl⟩
    show asOctetStreamParts S e (bad :: rest) = ([], some err)
    unfold asOctetStreamParts
    have hbf : toHeadersForm S e.style e.validator bad = .error err := by
      unfold toHeadersForm
      rw [hb]
    rw [hbf]
  | cons m ms ih =>
    obtain ⟨H, hm⟩ := toHeadersForm_ok S e.style e.validator m
      (hg m (List.mem_cons_self m ms))
    obtain ⟨ps, hps, hlen⟩ := ih (fun x hx => hg x (List.mem_cons_of_mem m hx))
    refine ⟨(getHeaders e H, e.compFn (.bytes m.payload)) :: ps, ?_, by simp [hlen]⟩
    show asOctetStreamParts S e (m :: (ms ++ bad :: rest)) = _
    unfold asOctetStreamParts
    rw [hm, hps]

/-- C10: for the octet-stream format the timing of a per-message
projection/validation failure depends on the message count: with exactly
one message ToParts itself returns the error synchronously, while with two
or more messages ToParts returns ok, and the same error surfaces only as
the terminal read error of the returned multipart body stream, after the
parts for the messages preceding the failing one. -/
theorem C10_octet_error_timing {β : Type} (C : Codecs β) (S : StrExt)
    (e : Enc β) (err : Err) (bad : Msg) (good rest : List Msg)
    (hmt : e.mt = mtOctetStream)
    (hg : ∀ m ∈ good, runVal e.validator m = none)
    (hb : runVal e.validator bad = some err) :
    toParts C S e [bad] = .error err ∧
    (2 ≤ (good ++ bad :: rest).length →
      ∃ ps, toParts C S e (good ++ bad :: rest) =
        .ok (multiHeaders e, .multi ps (some err)) ∧
        ps.length = good.length) := by
  constructor
  · unfold toParts
    rw [if_neg (show ¬([bad] = ([] : List Msg)) by simp),
      if_neg (by rw [hmt]; decide), if_pos hmt]
    show asOctetStreamSingle S e bad = .error err
    unfold asOctetStreamSingle
    have hbf : toHeadersForm S e.style e.validator bad = .error err := by
      unfold toHeadersForm
      rw [hb]
    rw [hbf]
  · intro hlen
    obtain ⟨ps, hps, hplen⟩ := asOctetStreamParts_fail S e good bad rest err hg hb
    refine ⟨ps, ?_, hplen⟩
    have hne2 : good ++ bad :: rest ≠ [] := by cases good <;> simp
    obtain ⟨x, l1, hx⟩ := List.exists_cons_of_ne_nil hne2
    have hl1 : l1 ≠ [] := by
      intro h0
      rw [hx, h0] at hlen
      simp at hlen
    obtain ⟨y, l2, hy⟩ := List.exists_cons_of_ne_nil hl1
    have htp : toParts C S e (good ++ bad :: rest) = .ok (multiHeaders e,
        .multi (asOctetStreamParts S e (good ++ bad :: rest)).1
          (asOctetStreamParts S e (good ++ bad :: rest)).2) := by
      rw [hx, hy]
      unfold toParts
      rw [if_neg (show ¬(x :: y :: l2 = ([] : List Msg)) by simp),
        if_neg (by rw [hmt]; decide), if_pos hmt]
    rw [htp, hps]

theorem C10_octet_error_timing_witness :
    runVal [wValReject] ({} : Msg) = some (.ext 7) ∧
    runVal [wValReject] sampleMsg = none ∧
    toParts wCodecs wStr
      { sampleEnc mtOctetStream styleXWebpa with validator := [wValReject] }
      [({} : Msg)] = .error (.ext 7) ∧
    ∃ ps, toParts wCodecs wStr
      { sampleEnc mtOctetStream styleXWebpa with validator := [wValReject] }
      ([sampleMsg] ++ ({} : Msg) :: []) =
      .ok (multiHeaders
          { sampleEnc mtOctetStream styleXWebpa with validator := [wValReject] },
        .multi ps (some (.ext 7))) ∧ ps.length = 1 := by
  have h := C10_octet_error_timing wCodecs wStr
    { sampleEnc mtOctetStream styleXWebpa with validator := [wValReject] }
    (.ext 7) {} [sampleMsg] [] rfl
    (by intro m hm; rw [List.mem_singleton] at hm; rw [hm]; rfl) rfl
  exact ⟨rfl, rfl, h.1, h.2 (by decide)⟩

/-! ### Claim C7 -/

theorem exceptFoldl_snoc {γ δ : Type} (f : δ → γ → Except Err δ) (b : δ)
    (l : List γ) (a : γ) :
    (l ++ [a]).foldlM f b = (l.foldlM f b).bind (fun x => f x a) := by
  induction l generalizing b with
  | nil =>
    show (f b a).bind (fun s => pure s) = f b a
    cases f b a <;> rfl
  | cons x xs ih =>
    show ((f b x).bind (fun s => (xs ++ [a]).foldlM f s)) =
      ((f b x).bind (fun s => xs.foldlM f s)).bind (fun y => f y a)
    cases f b x with
    | error er => rfl
    | ok v => exact ih v

/-- C7: NewEncoder applies the defaults first — base format msgpack,
identity compression, maxItemsPerChunk 0 translated to 1000 — then the
caller options in the order given, so appending an option post-composes it
on everything applied before it (a later option overrides an earlier one);
an option that reports an error makes the builder return exactly that
error, with no Encoder produced. -/
theorem C7_new_encoder_defaults_order_error {β : Type} :
    NewEncoder ([] : List (Option (EncOption β))) =
      .ok { mt := mtMsgpack, compFn := id, encoding := "identity",
            validator := [], style := "", maxItems := 1000 } ∧
    (∀ (opts : List (Option (EncOption β))) (f : EncOption β),
      NewEncoder (opts ++ [some f]) = (NewEncoder opts).bind f) ∧
    (∀ (opts : List (Option (EncOption β))) (f : EncOption β) (e : Enc β)
      (er : Err), NewEncoder opts = .ok e → f e = .error er →
      NewEncoder (opts ++ [some f]) = .error er) ∧
    (∀ e : Enc β, WithMaxItemsPerChunk 0 e = .ok { e with maxItems := 1000 }) := by
  have hsnoc : ∀ (opts : List (Option (EncOption β))) (f : EncOption β),
      NewEncoder (opts ++ [some f]) = (NewEncoder opts).bind f := by
    intro opts f
    unfold NewEncoder
    simp only []
    rw [← List.append_assoc, exceptFoldl_snoc]
  refine ⟨rfl, hsnoc, ?_, fun e => rfl⟩
  intro opts f e er hok herr
  rw [hsnoc, hok]
  show f e = .error er
  exact herr

theorem C7_new_encoder_defaults_order_error_witness :
    AsOctetStream ["bogus"]
      ({ mt := mtMsgpack, compFn := id, encoding := "identity",
         validator := [], style := "", maxItems := 1000 } : Enc Msg) =
      .error .invalidStyle ∧
    NewEncoder ([] ++ [some (AsOctetStream ["bogus"])] :
      List (Option (EncOption Msg))) = .error .invalidStyle := by
  refine ⟨rfl, ?_⟩
  exact C7_new_encoder_defaults_order_error.2.2.1 [] (AsOctetStream ["bogus"])
    { mt := mtMsgpack, compFn := id, encoding := "identity",
      validator := [], style := "", maxItems := 1000 } .invalidStyle
    C7_new_encoder_defaults_order_error.1 rfl

/-! ### Claim C4 -/

/-- C4: with a line-delimited format, n messages and maxItemsPerChunk c:
when 0 < c < n the encoder produces a multipart body of exactly
ceil(n/c) = (n + c - 1) / c parts, the parts partition the message list in
order into chunks, every part except the last holds exactly c messages and
the last holds n mod c (or c when c divides n); when c < 1 or n ≤ c a
single body is produced with no multipart wrapper. -/
theorem C4_chunking {β : Type} (C : Codecs β) (S : StrExt) (e : Enc β)
    (B : MsgCodec β) (shape : List β → PartBody β) (msgs : List Msg)
    (hmt : (e.mt = mtJSONL ∧ B = C.json ∧ shape = PartBody.lines) ∨
           (e.mt = mtMsgpackL ∧ B = C.msgpack ∧ shape = PartBody.array))
    (hev : ∀ m, runVal e.validator m = none)
    (hne : msgs ≠ []) :
    (1 ≤ e.maxItems → e.maxItems < (msgs.length : Int) →
      ∃ parts, toParts C S e msgs = .ok (multiHeaders e, .multi parts none) ∧
        parts.length =
          (msgs.length + e.maxItems.toNat - 1) / e.maxItems.toNat ∧
        parts = (chunkList e.maxItems.toNat msgs).map
          (fun ch => (getHeaders e, e.compFn (shape (ch.map B.enc)))) ∧
        (∀ ch ∈ (chunkList e.maxItems.toNat msgs).dropLast,
          ch.length = e.maxItems.toNat) ∧
        (∀ lastCh ∈ (chunkList e.maxItems.toNat msgs).getLast?,
          lastCh.length = if msgs.length % e.maxItems.toNat = 0
            then e.maxItems.toNat else msgs.length % e.maxItems.toNat)) ∧
    (e.maxItems < 1 ∨ (msgs.length : Int) ≤ e.maxItems →
      toParts C S e msgs = .ok (getHeaders e,
        .single (.ok (e.compFn (shape (msgs.map B.enc)))))) := by
  have hdisp : toParts C S e msgs = .ok (asLineFormat B e shape msgs) := by
    rcases hmt with ⟨hmt, hB, hsh⟩ | ⟨hmt, hB, hsh⟩
    · rw [hB, hsh]
      unfold toParts
      rw [if_neg hne, if_neg (by rw [hmt]; decide), if_neg (by rw [hmt]; decide),
        if_neg (by rw [hmt]; decide), if_pos hmt]
    · rw [hB, hsh]
      unfold toParts
      rw [if_neg hne, if_neg (by rw [hmt]; decide), if_neg (by rw [hmt]; decide),
        if_pos hmt]
  constructor
  · intro hc hlt
    have hc1 : 1 ≤ e.maxItems.toNat := by omega
    have hnn : 1 ≤ msgs.length := by
      cases msgs with
      | nil => exact absurd rfl hne
      | cons a l => simp
    refine ⟨(chunkList e.maxItems.toNat msgs).map
        (fun ch => (getHeaders e, e.compFn (shape (ch.map B.enc)))), ?_, ?_, rfl,
      chunkList_dropLast_length e.maxItems.toNat msgs hc1,
      chunkList_getLast_length e.maxItems.toNat msgs hc1 hne⟩
    · rw [hdisp]
      unfold asLineFormat
      rw [if_neg (by omega)]
      simp only []
      rw [chunkedParts_ok B e shape (chunkList e.maxItems.toNat msgs) hev]
    · rw [List.length_map]
      rw [chunkList_length e.maxItems.toNat msgs hc1 hne]
      rw [ceilDiv_shift msgs.length e.maxItems.toNat hnn hc1]
  · intro hsingle
    rw [hdisp]
    unfold asLineFormat
    rw [if_pos hsingle]
    rw [show encodeList B e.validator msgs = .ok (msgs.map B.enc) from
      mapExcept_encodeOne B e.validator msgs hev]
    rfl

theorem C4_chunking_witness :
    ∃ parts, toParts wCodecs wStr { sampleEnc mtJSONL "" with maxItems := 2 }
        [sampleMsg, sampleMsg2, sampleMsg] =
      .ok (multiHeaders { sampleEnc mtJSONL "" with maxItems := 2 },
        .multi parts none) ∧ parts.length = 2 := by
  have h := C4_chunking wCodecs wStr { sampleEnc mtJSONL "" with maxItems := 2 }
    wCodec PartBody.lines [sampleMsg, sampleMsg2, sampleMsg]
    (Or.inl ⟨rfl, rfl, rfl⟩) (fun m => rfl) (List.cons_ne_nil _ _)
  obtain ⟨parts, hp, hlen, _⟩ := h.1 (by decide) (by decide)
  exact ⟨parts, hp, by rw [hlen]; rfl⟩

/-! ### Claim C5 -/

theorem decodeParts_concat {β : Type} (C : Codecs β) (S : StrExt)
    (D : DecompSet β) (vals : List Validator)
    (parts : List (Header × PartBody β)) (mss : List (List Msg))
    (hf : List.Forall₂ (fun p ms => fromPart C S D vals p.1 (.ok p.2) = .ok ms)
      parts mss) :
    decodeParts C S D vals parts none = .ok mss.flatten := by
  induction hf with
  | nil => rfl
  | cons hpm hrest ih =>
    show (fromPart C S D vals _ (.ok _)).bind _ = _
    rw [hpm]
    show (decodeParts C S D vals _ none).bind _ = _
    rw [ih]
    rfl

theorem decodeParts_abort {β : Type} (C : Codecs β) (S : StrExt)
    (D : DecompSet β) (vals : List Validator) (err : Err) :
    ∀ (pre : List (Header × PartBody β)) (bp : Header × PartBody β)
      (rest : List (Header × PartBody β)) (t : Option Err),
    (∀ p ∈ pre, ∃ ms, fromPart C S D vals p.1 (.ok p.2) = .ok ms) →
    fromPart C S D vals bp.1 (.ok bp.2) = .error err →
    decodeParts C S D vals (pre ++ bp :: rest) t = .error err := by
  intro pre
  induction pre with
  | nil =>
    intro bp rest t _ hbad
    show (fromPart C S D vals bp.1 (.ok bp.2)).bind _ = .error err
    rw [hbad]
    rfl
  | cons p ps ih =>
    intro bp rest t hpre hbad
    obtain ⟨ms, hms⟩ := hpre p (List.mem_cons_self p ps)
    show (fromPart C S D vals p.1 (.ok p.2)).bind
      (fun msgs => (decodeParts C S D vals (ps ++ bp :: rest) t).bind
        (fun more => pure (msgs ++ more))) = .error err
    rw [hms, ih bp rest t (fun q hq => hpre q (List.mem_cons_of_mem p hq)) hbad]
    rfl

/-- C5: multipart decode requires the subtype mixed and a boundary
parameter — a missing boundary is the missing-boundary error and any other
multipart subtype is an unsupported-media-type error; the parts are decoded
in order with the results concatenated in that order, and a decode failure
on any part aborts the whole operation with that error and no partial
message list. -/
theorem C5_multipart_decode {β : Type} (C : Codecs β) (S : StrExt)
    (D : DecompSet β) (vals : List Validator) (h : Header) (mt : String)
    (params : List (String × String)) (body : BodyStream β)
    (hct : parseMediaType (Header.get h "Content-Type") = .ok (mt, params))
    (hpfx : goHasPfx mt "multipart/" = true) :
    (paramGet params "boundary" = "" →
      DecodeFromParts C S D vals h body = .error .missingBoundary) ∧
    (paramGet params "boundary" ≠ "" → mt ≠ "multipart/mixed" →
      DecodeFromParts C S D vals h body = .error .unsupportedMediaType) ∧
    (paramGet params "boundary" ≠ "" → mt = "multipart/mixed" →
      ∀ (parts : List (Header × PartBody β)) (mss : List (List Msg)),
        body = .multi parts none →
        List.Forall₂ (fun p ms => fromPart C S D vals p.1 (.ok p.2) = .ok ms)
          parts mss →
        DecodeFromParts C S D vals h body = .ok mss.flatten) ∧
    (paramGet params "boundary" ≠ "" → mt = "multipart/mixed" →
      ∀ (pre : List (Header × PartBody β)) (bp : Header × PartBody β)
        (rest : List (Header × PartBody β)) (t : Option Err) (err : Err),
        body = .multi (pre ++ bp :: rest) t →
        (∀ p ∈ pre, ∃ ms, fromPart C S D vals p.1 (.ok p.2) = .ok ms) →
        fromPart C S D vals bp.1 (.ok bp.2) = .error err →
        DecodeFromParts C S D vals h body = .error err) := by
  refine ⟨?_, ?_, ?_, ?_⟩
  · intro hbnd
    unfold DecodeFromParts
    rw [hct]
    simp [hpfx, hbnd]
  · intro hbnd hmix
    unfold DecodeFromParts
    rw [hct]
    simp [hpfx, hbnd, hmix]
  · intro hbnd hmix parts mss hbody hf
    subst hbody
    subst hmix
    have hred : DecodeFromParts C S D vals h (.multi parts none) =
        decodeParts C S D vals parts none := by
      unfold DecodeFromParts
      rw [hct]
      simp [hpfx, hbnd]
    rw [hred]
    exact decodeParts_concat C S D vals parts mss hf
  · intro hbnd hmix pre bp rest t err hbody hpre hbad
    subst hbody
    subst hmix
    have hred : DecodeFromParts C S D vals h (.multi (pre ++ bp :: rest) t) =
        decodeParts C S D vals (pre ++ bp :: rest) t := by
      unfold DecodeFromParts
      rw [hct]
      simp [hpfx, hbnd]
    rw [hred]
    exact decodeParts_abort C S D vals err pre bp rest t hpre hbad

theorem C5_multipart_decode_witness :
    DecodeFromParts wCodecs wStr wDecomp []
      (hOf [("Content-Type", ["multipart/mixed; boundary=wrpmodelboundary"])])
      (.multi ([] : List (Header × PartBody Msg)) none) =
      .ok (List.flatten ([] : List (List Msg))) := by
  have h := C5_multipart_decode wCodecs wStr wDecomp []
    (hOf [("Content-Type", ["multipart/mixed; boundary=wrpmodelboundary"])])
    "multipart/mixed" [("boundary", "wrpmodelboundary")]
    (.multi [] none) rfl rfl
  exact h.2.2.1 (by decide) rfl [] [] rfl List.Forall₂.nil

/-! ### Claim C2 -/

theorem insertByQ_perm (x : AcceptType) (l : List AcceptType) :
    (insertByQ x l).Perm (x :: l) := by
  induction l with
  | nil => exact List.Perm.refl _
  | cons y ys ih =>
    unfold insertByQ
    by_cases hle : y.q ≤ x.q
    · rw [if_pos hle]
    · rw [if_neg hle]
      exact (ih.cons y).trans (List.Perm.swap x y ys)

theorem sortByQ_perm (l : List AcceptType) : (sortByQ l).Perm l := by
  induction l with
  | nil => exact List.Perm.refl _
  | cons x xs ih =>
    unfold sortByQ
    exact (insertByQ_perm x (sortByQ xs)).trans (ih.cons x)

theorem insertByQ_sorted (x : AcceptType) (l : List AcceptType)
    (hl : l.Pairwise (fun a b => b.q ≤ a.q)) :
    (insertByQ x l).Pairwise (fun a b => b.q ≤ a.q) := by
  induction l with
  | nil => simp [insertByQ]
  | cons y ys ih =>
    rw [List.pairwise_cons] at hl
    obtain ⟨hy, hys⟩ := hl
    unfold insertByQ
    by_cases hle : y.q ≤ x.q
    · rw [if_pos hle]
      refine List.Pairwise.cons ?_ (List.Pairwise.cons hy hys)
      intro b hb
      rcases List.mem_cons.mp hb with hb | hb
      · rw [hb]; exact hle
      · exact le_trans (hy b hb) hle
    · rw [if_neg hle]
      refine List.Pairwise.cons ?_ (ih hys)
      intro b hb
      have hmem := (insertByQ_perm x ys).mem_iff.mp hb
      rcases List.mem_cons.mp hmem with hb2 | hb2
      · rw [hb2]; exact le_of_not_le hle
      · exact hy b hb2

theorem sortByQ_sorted (l : List AcceptType) :
    (sortByQ l).Pairwise (fun a b => b.q ≤ a.q) := by
  induction l with
  | nil => exact List.Pairwise.nil
  | cons x xs ih => exact insertByQ_sorted x (sortByQ xs) ih

theorem insertByQ_filter (x : AcceptType) (l : List AcceptType) (q0 : ℚ) :
    (insertByQ x l).filter (fun a => decide (a.q = q0)) =
      if x.q = q0 then x :: l.filter (fun a => decide (a.q = q0))
      else l.filter (fun a => decide (a.q = q0)) := by
  induction l with
  | nil => by_cases h : x.q = q0 <;> simp [insertByQ, h]
  | cons y ys ih =>
    unfold insertByQ
    by_cases hle : y.q ≤ x.q
    · rw [if_pos hle]
      by_cases h : x.q = q0 <;> simp [List.filter_cons, h]
    · rw [if_neg hle]
      by_cases h : x.q = q0
      · rw [if_pos h]
        by_cases hy : y.q = q0
        · exact absurd (le_of_eq (hy.trans h.symm)) hle
        · simp [List.filter_cons, hy, ih, h]
      · rw [if_neg h]
        by_cases hy : y.q = q0 <;> simp [List.filter_cons, hy, ih, h]

theorem sortByQ_filter (l : List AcceptType) (q0 : ℚ) :
    (sortByQ l).filter (fun a => decide (a.q = q0)) =
      l.filter (fun a => decide (a.q = q0)) := by
  induction l with
  | nil => rfl
  | cons x xs ih =>
    unfold sortByQ
    rw [insertByQ_filter]
    by_cases h : x.q = q0
    · rw [if_pos h, ih]
      simp [List.filter_cons, h]
    · rw [if_neg h, ih]
      simp [List.filter_cons, h]

/-- C2: with a non-empty Accept header the comma-separated entries are
parsed (q defaults to 1 when no q parameter is present), stable-sorted by
nonincreasing q (a permutation, sorted, preserving the original relative
order of entries of equal q), and scanned in order: a wildcard entry is
skipped but remembered, the first concrete entry with an exact registry
match wins immediately, a concrete entry without a match is skipped without
being remembered; an exhausted scan yields msgpackl when a wildcard was
seen and an error otherwise. -/
theorem C2_accept_negotiation :
    (∀ part v ps, parseMediaType (goTrim part) = .ok (v, ps) →
      ps.find? (fun p => p.1 = "q") = none →
      parseAcceptEntry part = .ok ⟨v, ps, 1⟩) ∧
    (∀ l : List AcceptType, (sortByQ l).Perm l ∧
      (sortByQ l).Pairwise (fun a b => b.q ≤ a.q) ∧
      ∀ q0 : ℚ, (sortByQ l).filter (fun a => decide (a.q = q0)) =
        l.filter (fun a => decide (a.q = q0))) ∧
    (∀ a rest w, isWildAccept a = true →
      scanAccepts (a :: rest) w = scanAccepts rest true) ∧
    (∀ a rest w mt, isWildAccept a = false → acceptMatch? a = some mt →
      scanAccepts (a :: rest) w = .ok mt) ∧
    (∀ a rest w, isWildAccept a = false → acceptMatch? a = none →
      scanAccepts (a :: rest) w = scanAccepts rest w) ∧
    (scanAccepts [] true = .ok mtMsgpackL ∧
     scanAccepts [] false = .error .noAcceptable) ∧
    (∀ h entries, Header.get h "Accept" ≠ "" →
      mapExcept parseAcceptEntry (goSplit ',' (Header.get h "Accept")) =
        .ok entries →
      examineRequest h = scanAccepts (sortByQ entries) false) := by
  refine ⟨?_, ?_, ?_, ?_, ?_, ⟨rfl, rfl⟩, ?_⟩
  · intro part v ps hpm hq
    unfold parseAcceptEntry
    rw [hpm]
    show (match ps.find? (fun p => decide (p.1 = "q")) with
      | some p =>
        match parseDec p.2 with
        | some qf =>
          Except.ok (AcceptType.mk v (ps.filter (fun x => decide (¬ (x.1 = "q")))) qf)
        | none => Except.ok (AcceptType.mk v ps 1)
      | none => Except.ok (AcceptType.mk v ps 1)) =
      Except.ok (AcceptType.mk v ps 1)
    rw [hq]
  · intro l
    exact ⟨sortByQ_perm l, sortByQ_sorted l, sortByQ_filter l⟩
  · intro a rest w hwild
    conv_lhs => rw [scanAccepts]
    rw [if_pos hwild]
  · intro a rest w mt hwild hmatch
    conv_lhs => rw [scanAccepts]
    rw [if_neg (by rw [hwild]; exact Bool.false_ne_true), hmatch]
  · intro a rest w hwild hmatch
    conv_lhs => rw [scanAccepts]
    rw [if_neg (by rw [hwild]; exact Bool.false_ne_true), hmatch]
  · intro h entries hne hparse
    unfold examineRequest
    simp only []
    rw [if_neg hne]
    show (mapExcept parseAcceptEntry
      (goSplit ',' (Header.get h "Accept"))).bind
        (fun entries => scanAccepts (sortByQ entries) false) = _
    rw [hparse]
    rfl

theorem C2_accept_negotiation_witness :
    examineRequest (hOf [("Accept", ["application/msgpack"])]) =
      scanAccepts (sortByQ [⟨"application/msgpack", [], 1⟩]) false ∧
    scanAccepts [⟨"*/*", [], 1⟩] false = scanAccepts [] true ∧
    scanAccepts [] true = .ok mtMsgpackL := by
  refine ⟨C2_accept_negotiation.2.2.2.2.2.2
      (hOf [("Accept", ["application/msgpack"])])
      [⟨"application/msgpack", [], 1⟩] (by decide) rfl,
    C2_accept_negotiation.2.2.1 ⟨"*/*", [], 1⟩ [] false rfl,
    C2_accept_negotiation.2.2.2.2.2.1.1⟩

/-! ### Claim C3 -/

theorem examineContentType_eq (h : Header) :
    examineContentType h =
      (toMediaTypeFromMime (Header.get h "Content-Type")).bind (fun mt =>
        if mt ≠ mtOctetStream then .ok mt
        else toMediaType mtOctetStream
          (if Hdr.whichStyle destinationHeader h = "" then
            (if Hdr.whichStyle messageTypeHeader h = styleXXmidt then styleXWebpa
             else Hdr.whichStyle messageTypeHeader h)
           else Hdr.whichStyle destinationHeader h)) := rfl

/-- C3 counterexample: on a request with no Accept header, a Content-Type
of application/octet-stream with a valid style parameter, and an
X-Xmidt-Destination header present, the source honours the Content-Type
style parameter and returns the x-midt variant, while the claim — the
style is not taken from the Content-Type style parameter but guessed from
the header-name variants — predicts the webpa variant; the two disagree. -/
theorem C3_counterexample :
    examineRequest (hOf [("Content-Type",
        ["application/octet-stream; style=X-Midt"]),
      ("X-Xmidt-Destination", ["d"])]) =
      .ok "application/octet-stream; style=x-midt" ∧
    specC3Negotiate (hOf [("Content-Type",
        ["application/octet-stream; style=X-Midt"]),
      ("X-Xmidt-Destination", ["d"])]) =
      .ok "application/octet-stream; style=x-webpa" ∧
    examineRequest (hOf [("Content-Type",
        ["application/octet-stream; style=X-Midt"]),
      ("X-Xmidt-Destination", ["d"])]) ≠
    specC3Negotiate (hOf [("Content-Type",
        ["application/octet-stream; style=X-Midt"]),
      ("X-Xmidt-Destination", ["d"])]) := by
  have h1 : examineRequest (hOf [("Content-Type",
      ["application/octet-stream; style=X-Midt"]),
    ("X-Xmidt-Destination", ["d"])]) =
      .ok "application/octet-stream; style=x-midt" := rfl
  have h2 : specC3Negotiate (hOf [("Content-Type",
      ["application/octet-stream; style=X-Midt"]),
    ("X-Xmidt-Destination", ["d"])]) =
      .ok "application/octet-stream; style=x-webpa" := rfl
  refine ⟨h1, h2, ?_⟩
  rw [h1, h2]
  intro hcontra
  have h3 := Except.ok.inj hcontra
  simp at h3

/-- C3 (amended): when negotiating a request that has no Accept header the
Content-Type is parsed through the registry including its style parameter:
a Content-Type that parses to any type other than plain octet-stream (in
particular an octet-stream with a valid non-empty style parameter) is
returned directly, style included; only when the parse yields the plain
octet-stream type is the style guessed from which header-name variant is
present, destination field first and then message-type field, and only an
X-Xmidt style detected via the message-type field is remapped to X-Webpa;
a Content-Type parse failure is returned as an error. -/
theorem C3_content_type_fallback (h : Header)
    (hacc : Header.get h "Accept" = "") :
    (∀ mt, toMediaTypeFromMime (Header.get h "Content-Type") = .ok mt →
      mt ≠ mtOctetStream → examineRequest h = .ok mt) ∧
    (toMediaTypeFromMime (Header.get h "Content-Type") = .ok mtOctetStream →
      Hdr.whichStyle destinationHeader h ≠ "" →
      examineRequest h =
        toMediaType mtOctetStream (Hdr.whichStyle destinationHeader h)) ∧
    (toMediaTypeFromMime (Header.get h "Content-Type") = .ok mtOctetStream →
      Hdr.whichStyle destinationHeader h = "" →
      examineRequest h = toMediaType mtOctetStream
        (if Hdr.whichStyle messageTypeHeader h = styleXXmidt then styleXWebpa
         else Hdr.whichStyle messageTypeHeader h)) ∧
    (∀ er, toMediaTypeFromMime (Header.get h "Content-Type") = .error er →
      examineRequest h = .error er) := by
  have hexr : examineRequest h = examineContentType h := by
    unfold examineRequest
    simp only []
    rw [if_pos hacc]
  refine ⟨?_, ?_, ?_, ?_⟩
  · intro mt htm hne
    rw [hexr, examineContentType_eq, htm]
    show (if mt ≠ mtOctetStream then Except.ok mt else _) = .ok mt
    rw [if_pos hne]
  · intro htm hdest
    rw [hexr, examineContentType_eq, htm]
    show (if mtOctetStream ≠ mtOctetStream then Except.ok mtOctetStream
      else toMediaType mtOctetStream _) = _
    rw [if_neg (by simp), if_neg hdest]
  · intro htm hdest
    rw [hexr, examineContentType_eq, htm]
    show (if mtOctetStream ≠ mtOctetStream then Except.ok mtOctetStream
      else toMediaType mtOctetStream _) = _
    rw [if_neg (by simp), if_pos hdest]
  · intro er htm
    rw [hexr, examineContentType_eq, htm]
    rfl

theorem C3_content_type_fallback_witness :
    Header.get (hOf [("Content-Type", ["application/octet-stream"]),
      ("Xmidt-Message-Type", ["t"])]) "Accept" = "" ∧
    examineRequest (hOf [("Content-Type", ["application/octet-stream"]),
        ("Xmidt-Message-Type", ["t"])]) =
      toMediaType mtOctetStream
        (if Hdr.whichStyle messageTypeHeader
            (hOf [("Content-Type", ["application/octet-stream"]),
              ("Xmidt-Message-Type", ["t"])]) = styleXXmidt then styleXWebpa
         else Hdr.whichStyle messageTypeHeader
            (hOf [("Content-Type", ["application/octet-stream"]),
              ("Xmidt-Message-Type", ["t"])])) :=
  ⟨rfl, (C3_content_type_fallback
    (hOf [("Content-Type", ["application/octet-stream"]),
      ("Xmidt-Message-Type", ["t"])]) rfl).2.2.1 rfl rfl⟩

/-! ### Claim C1 -/

theorem forall2_mem_left {α γ : Type} {R : α → γ → Prop} {l1 : List α}
    {l2 : List γ} (hf : List.Forall₂ R l1 l2) :
    ∀ a ∈ l1, ∃ b ∈ l2, R a b := by
  induction hf with
  | nil => intro a ha; exact absurd ha (List.not_mem_nil a)
  | cons hab hrest ih =>
    intro x hx
    rcases List.mem_cons.mp hx with hx | hx
    · exact ⟨_, List.mem_cons_self _ _, hx ▸ hab⟩
    · obtain ⟨b, hb, hxb⟩ := ih x hx
      exact ⟨b, List.mem_cons_of_mem _ hb, hxb⟩

theorem sameUpToMetaOrder_msgEquiv (a b : Msg) (h : sameUpToMetaOrder a b) :
    msgEquiv a b := by
  obtain ⟨heq, hperm⟩ := h
  rw [heq]
  exact ⟨rfl, rfl, rfl, rfl, rfl, rfl, rfl, rfl, rfl, rfl, rfl, rfl, rfl, rfl,
    hperm⟩

theorem sameUpToMetaOrder_valid (a b : Msg) (h : sameUpToMetaOrder a b)
    (hvb : ValidMsg b) : ValidMsg a := by
  obtain ⟨heq, hperm⟩ := h
  obtain ⟨⟨hnd, hkv⟩, hpart, hhdr⟩ := hvb
  rw [heq]
  refine ⟨⟨?_, ?_⟩, ?_, ?_⟩
  · show (List.map Prod.fst a.metadata).Nodup
    exact ((hperm.map Prod.fst).nodup_iff).mpr hnd
  · intro kv hkvm
    exact hkv kv (hperm.mem_iff.mp hkvm)
  · exact hpart
  · exact hhdr

/-- C1: for every base format, octet-stream header style and compression
inverted by its decoder, encoding a valid non-empty message list with
Encoder.ToParts and decoding the produced headers and body with
DecodeFromParts yields the original list back field for field; the
encoder may see the metadata of each message in any emission order
(sameUpToMetaOrder) and the result is equal to the original messages with
the metadata compared as maps (msgEquiv). -/
theorem C1_round_trip_identity {β : Type} (C : Codecs β) (S : StrExt)
    (D : DecompSet β) (e : Enc β) (vals : List Validator)
    (msgs msgsEnc : List Msg)
    (hmt : e.mt = mtJSON ∨ e.mt = mtMsgpack ∨ e.mt = mtOctetStream ∨
      e.mt = mtJSONL ∨ e.mt = mtMsgpackL)
    (hst : e.style = styleXXmidt ∨ e.style = styleXMidt ∨ e.style = styleXmidt ∨
      e.style = styleXWebpa)
    (hc : CompInverts D e.encoding e.compFn)
    (hdj : ∀ mm, C.json.dec (C.json.enc mm) = some mm)
    (hdm : ∀ mm, C.msgpack.dec (C.msgpack.enc mm) = some mm)
    (hfr : ∀ t, S.parseType (S.friendly t) = t)
    (hfne : ∀ t, S.friendly t ≠ "")
    (hir : ∀ i, S.readIntStr (S.showInt i) = some i)
    (hine : ∀ i, S.showInt i ≠ "")
    (hv : ∀ mm, runVal vals mm = none)
    (hev : ∀ mm, runVal e.validator mm = none)
    (hne : msgs ≠ [])
    (hms : ∀ m ∈ msgs, ValidMsg m)
    (hperm : List.Forall₂ sameUpToMetaOrder msgsEnc msgs) :
    ∃ out, roundTrip C S D e vals msgsEnc = .ok out ∧
      List.Forall₂ msgEquiv out msgs := by
  have hneE : msgsEnc ≠ [] := by
    intro h0
    subst h0
    cases hperm
    exact hne rfl
  have hmsE : ∀ m ∈ msgsEnc, ValidMsg m := by
    intro m hm
    obtain ⟨b, hb, hab⟩ := forall2_mem_left hperm m hm
    exact sameUpToMetaOrder_valid m b hab (hms b hb)
  exact ⟨msgsEnc, roundTrip_ok C S D e vals msgsEnc hmt hst hc hdj hdm hfr
    hfne hir hine hv hev hneE hmsE, hperm.imp sameUpToMetaOrder_msgEquiv⟩

theorem C1_round_trip_identity_witness :
    ∃ out, roundTrip wCodecs wStr wDecomp (sampleEnc mtJSON styleXWebpa) []
        [{ sampleMsg with metadata := [("key2", "value2"), ("key1", "value1")] }] =
      .ok out ∧ List.Forall₂ msgEquiv out [sampleMsg] := by
  refine C1_round_trip_identity wCodecs wStr wDecomp (sampleEnc mtJSON styleXWebpa)
    [] [sampleMsg]
    [{ sampleMsg with metadata := [("key2", "value2"), ("key1", "value1")] }]
    (Or.inl rfl) (Or.inr (Or.inr (Or.inr rfl)))
    (Or.inr (Or.inr (Or.inr ⟨Or.inl rfl, fun b => rfl⟩)))
    (fun mm => rfl) (fun mm => rfl)
    wStr_parse_friendly wStr_friendly_ne wStr_read_show wStr_show_ne
    (fun mm => rfl) (fun mm => rfl) (List.cons_ne_nil _ _) ?_ ?_
  · intro m hm
    rw [List.mem_singleton] at hm
    subst hm
    refine ⟨⟨?_, ?_⟩, ?_, ?_⟩ <;> decide
  · exact List.Forall₂.cons ⟨rfl, List.Perm.swap _ _ _⟩ List.Forall₂.nil
